import Mathlib

/-!
# MyVector: a shallow embedding of `src/main.cpp`

The class `MyVector<T>` owns a heap buffer `data_`, a logical size `size_` and
the number of allocated slots `allocated_size_`.

Modelling decisions.

* `size_t` has 64 bits and `new` does not fail (the source does not check it).
  The sized constructor computes `size * 2 + 1` from its argument, before
  anything is allocated, and the result wraps around modulo 2^64.  In
  `size_ * 2` and `size_++` the operand counts slots of a buffer that exists;
  these are taken as exact.
* The buffer behind `data_` is a list; its length is the extent that `new T[n]`
  really allocated, kept apart from the field `allocated_size_`, so that the
  agreement of the two is a property to prove and not a consequence of the
  encoding.
* Every read and write of a buffer slot is checked against the extent of the
  buffer.  An access outside of it, or to a buffer that `delete[]` has released,
  is undefined behaviour in C++ and is the fault `Fault.outOfBounds` here; a
  failed `assert` is the fault `Fault.assertion`.
* `new T[n]` is default initialisation: for a class type every slot holds
  `T()`, for a type like `int` the slots hold indeterminate values.  Every
  operation that allocates takes the content `fresh` that `new` delivers in the
  slots, so that a statement for every `fresh` covers both.
* The insertions take their argument by reference (`const T&`, `Args&&...`) and
  read it after the growth step and the shift.  An argument is therefore a
  `Ref`: an object outside of the buffer, or a slot of the buffer of the vector
  itself as in `v.PushBack(v[0])`, read at the moment the source reads it.
* `for` loops are recursive functions over the number of iterations left
  (ascending loops) or over the loop variable itself (descending loops).
* `int` is a 32 bit two's complement integer; `toInt` is the conversion of a
  `size_t` to it.
* An operation on one vector takes the vector as a value, members and buffer
  content.  Copy and move involve two objects and the identity of their
  buffers; they are given a second time on a memory `Mem` of named objects and
  addressed buffers, in which `new` may return any address that is free.
-/

namespace MyVec

/-- Ways an operation can go wrong: a failed `assert`, or an access to a slot
that is in no allocated buffer, past the end of a buffer or in a buffer that
`delete[]` has released. -/
inductive Fault where
  | assertion
  | outOfBounds
  deriving DecidableEq, Repr

/-- Outcome of an operation: a fault or a value. -/
abbrev Res (α : Type) := Except Fault α

instance {ε α : Type} [DecidableEq ε] [DecidableEq α] : DecidableEq (Except ε α)
  | Except.ok a, Except.ok b =>
    if h : a = b then isTrue (by rw [h]) else isFalse (fun h1 => h (by cases h1; rfl))
  | Except.error a, Except.error b =>
    if h : a = b then isTrue (by rw [h]) else isFalse (fun h1 => h (by cases h1; rfl))
  | Except.ok _, Except.error _ => isFalse (fun h => by cases h)
  | Except.error _, Except.ok _ => isFalse (fun h => by cases h)

/-- The three data members of `MyVector<T>`. -/
structure MyVector (T : Type) where
  size_ : Nat
  allocated_size_ : Nat
  data_ : List T
  deriving DecidableEq, Repr

variable {T : Type}

/-- Allocation `new T[n]`: `n` slots, slot `i` holding what the allocation delivers there,
`fresh i`. -/
def newArray (fresh : Nat → T) (n : Nat) : List T := (List.range n).map fresh

/-- Read of `buf[i]`. -/
def rd (buf : List T) (i : Nat) : Res T :=
  match buf[i]? with
  | some x => Except.ok x
  | none => Except.error Fault.outOfBounds

/-- Write `buf[i] = x`. -/
def wr (buf : List T) (i : Nat) (x : T) : Res (List T) :=
  if i < buf.length then Except.ok (buf.set i x) else Except.error Fault.outOfBounds

/-- Constructor `MyVector()`. -/
def mkDefault (fresh : Nat → T) : MyVector T :=
  { size_ := 0, allocated_size_ := 1, data_ := newArray fresh 1 }

/-- Loop `for (i = i0; i < size_; ++i) data_[i] = value;` with `k` iterations left. -/
def fillLoop (value : T) : Nat → Nat → List T → Res (List T)
  | 0, _, data => Except.ok data
  | k + 1, i, data =>
    match wr data i value with
    | Except.ok data1 => fillLoop value k (i + 1) data1
    | Except.error e => Except.error e

/-- Constructor `MyVector(size_t size, T value)`; `size * 2 + 1` is computed in `size_t`,
modulo 2^64. -/
def mkSized (fresh : Nat → T) (size : Nat) (value : T) : Res (MyVector T) :=
  let size_ := size
  let allocated_size_ := (size * 2 + 1) % 18446744073709551616
  match fillLoop value size_ 0 (newArray fresh allocated_size_) with
  | Except.ok data => Except.ok { size_ := size_, allocated_size_ := allocated_size_, data_ := data }
  | Except.error e => Except.error e

/-- Loop `for (i = i0; i < size_; i++) data_[i] = src[i];` with `k` iterations left. -/
def copyLoop (src : List T) : Nat → Nat → List T → Res (List T)
  | 0, _, data => Except.ok data
  | k + 1, i, data =>
    match rd src i with
    | Except.ok x =>
      match wr data i x with
      | Except.ok data1 => copyLoop src k (i + 1) data1
      | Except.error e => Except.error e
    | Except.error e => Except.error e

/-- Copy constructor `MyVector(const MyVector& other)`. -/
def copyCtor (fresh : Nat → T) (other : MyVector T) : Res (MyVector T) :=
  let size_ := other.size_
  let allocated_size_ := other.allocated_size_
  match copyLoop other.data_ size_ 0 (newArray fresh allocated_size_) with
  | Except.ok data => Except.ok { size_ := size_, allocated_size_ := allocated_size_, data_ := data }
  | Except.error e => Except.error e

/-- Copy assignment `operator=(const MyVector& other)` on two distinct objects. -/
def copyAssign (fresh : Nat → T) (self other : MyVector T) : Res (MyVector T) :=
  let s1 : MyVector T :=
    if self.allocated_size_ ≠ other.allocated_size_ then
      { self with allocated_size_ := other.allocated_size_,
                  data_ := newArray fresh other.allocated_size_ }
    else self
  let s2 : MyVector T := { s1 with size_ := other.size_ }
  match copyLoop other.data_ s2.size_ 0 s2.data_ with
  | Except.ok data => Except.ok { s2 with data_ := data }
  | Except.error e => Except.error e

/-- Loop of copy assignment when `other` is the object itself:
`data_[i] = data_[i]`, with `k` iterations left. -/
def selfCopyLoop : Nat → Nat → List T → Res (List T)
  | 0, _, data => Except.ok data
  | k + 1, i, data =>
    match rd data i with
    | Except.ok x =>
      match wr data i x with
      | Except.ok data1 => selfCopyLoop k (i + 1) data1
      | Except.error e => Except.error e
    | Except.error e => Except.error e

/-- Copy assignment `v = v`: every read of `other` is a read of the object. -/
def copyAssignSelf (fresh : Nat → T) (self : MyVector T) : Res (MyVector T) :=
  let s1 : MyVector T :=
    if self.allocated_size_ ≠ self.allocated_size_ then
      { self with data_ := newArray fresh self.allocated_size_ }
    else self
  let s2 : MyVector T := { s1 with size_ := s1.size_ }
  match selfCopyLoop s2.size_ 0 s2.data_ with
  | Except.ok data => Except.ok { s2 with data_ := data }
  | Except.error e => Except.error e

/-- Move constructor `MyVector(MyVector&& other)`: the new object and the state
left in `other`. -/
def moveCtor (fresh : Nat → T) (other : MyVector T) : MyVector T × MyVector T :=
  ({ size_ := other.size_, allocated_size_ := other.allocated_size_, data_ := other.data_ },
   { size_ := 0, allocated_size_ := 1, data_ := newArray fresh 1 })

/-- Move assignment `operator=(MyVector&& other)` on two distinct objects: the
assigned object and the state left in `other`.  The buffer of `self` is
released and plays no further part. -/
def moveAssign (fresh : Nat → T) (_self other : MyVector T) : MyVector T × MyVector T :=
  ({ size_ := other.size_, allocated_size_ := other.allocated_size_, data_ := other.data_ },
   { size_ := 0, allocated_size_ := 1, data_ := newArray fresh 1 })

/-- Method `Size()`. -/
def Size (v : MyVector T) : Nat := v.size_

/-- Method `IsEmpty()`. -/
def IsEmpty (v : MyVector T) : Bool := v.size_ == 0

/-- Method `Relocate(new_size)`. -/
def Relocate (fresh : Nat → T) (v : MyVector T) (new_size : Nat) : Res (MyVector T) :=
  let temp := v.data_
  match copyLoop temp v.size_ 0 (newArray fresh new_size) with
  | Except.ok data => Except.ok { v with allocated_size_ := new_size, data_ := data }
  | Except.error e => Except.error e

/-- The step `if (size_ == allocated_size_) Relocate(size_ * 2);` shared by the
four insertions. -/
def growIfFull (fresh : Nat → T) (v : MyVector T) : Res (MyVector T) :=
  if v.size_ = v.allocated_size_ then Relocate fresh v (v.size_ * 2) else Except.ok v

/-- What a parameter passed by reference refers to when the call is made. -/
inductive Ref (T : Type) where
  /-- An object that is no slot of the buffer of the vector; `x` is its value. -/
  | outside (x : T)
  /-- The slot `j` of the buffer of the vector, as the argument `v[j]` is. -/
  | slot (j : Nat)
  deriving DecidableEq, Repr

/-- Read through a reference.  `buf` is the buffer that the vector had when the call was made:
`some b` with its present content `b`, `none` once `delete[]` has released it. -/
def Ref.read (r : Ref T) (buf : Option (List T)) : Res T :=
  match r, buf with
  | Ref.outside x, _ => Except.ok x
  | Ref.slot j, some b => rd b j
  | Ref.slot _, none => Except.error Fault.outOfBounds

/-- The buffer that the vector `v` had when an insertion was called, at a later moment of the
insertion: released by `Relocate` when the vector was full, otherwise still the buffer of the
vector, with the content `now`. -/
def callBuffer (v : MyVector T) (now : List T) : Option (List T) :=
  if v.size_ = v.allocated_size_ then none else some now

/-- The argument `r` of an insertion into `v` is still there when the insertion reads it: it is
an object outside of the buffer, or it is an element `v[j]`, with `j` below the size, of a vector
that is not full, whose buffer the growth step keeps. -/
def Ref.Survives : Ref T → MyVector T → Prop
  | Ref.outside _, _ => True
  | Ref.slot j, v => j < v.size_ ∧ v.size_ ≠ v.allocated_size_

instance (r : Ref T) (v : MyVector T) : Decidable (r.Survives v) := by
  cases r <;> unfold Ref.Survives <;> infer_instance

/-- The arguments `Args&&... args` of an emplace are references, read when
`T(std::forward<Args>(args)...)` is evaluated.  A pack is given by the values its arguments
have at that moment, as they depend on the buffer that the vector had when the call was made:
`some b` with its present content, `none` once `delete[]` has released it. -/
abbrev ArgPack (T A : Type) := Option (List T) → Res A

/-- A pack none of whose arguments refers to a slot of the buffer, with the values `a`. -/
def ArgPack.values {A : Type} (a : A) : ArgPack T A := fun _ => Except.ok a

/-- The pack of the one argument `v[j]`, from which `T(args...)` is a copy of the slot. -/
def ArgPack.element (j : Nat) : ArgPack T T := (Ref.slot j).read

/-- The step `if (size_ < allocated_size_ / 4) Relocate(allocated_size_ / 2);`
shared by the two removals. -/
def shrinkIfSparse (fresh : Nat → T) (v : MyVector T) : Res (MyVector T) :=
  if v.size_ < v.allocated_size_ / 4 then Relocate fresh v (v.allocated_size_ / 2)
  else Except.ok v

/-- Method `PushBack(const T& value)`: `value` is read for `data_[size_++] = value`, after the
growth step. -/
def PushBack (fresh : Nat → T) (v : MyVector T) (value : Ref T) : Res (MyVector T) :=
  match growIfFull fresh v with
  | Except.ok v1 =>
    match value.read (callBuffer v v1.data_) with
    | Except.ok x =>
      match wr v1.data_ v1.size_ x with
      | Except.ok data => Except.ok { v1 with size_ := v1.size_ + 1, data_ := data }
      | Except.error e => Except.error e
    | Except.error e => Except.error e
  | Except.error e => Except.error e

/-- Method `PopBack()`. -/
def PopBack (fresh : Nat → T) (v : MyVector T) : Res (MyVector T) :=
  if v.size_ ≠ 0 then
    shrinkIfSparse fresh { v with size_ := v.size_ - 1 }
  else Except.error Fault.assertion

/-- Loop `for (i = size_; i > 1; i--) data_[i - 1] = data_[i - 2];` by recursion
on the loop variable. -/
def shiftUpLoop : Nat → List T → Res (List T)
  | 0, data => Except.ok data
  | 1, data => Except.ok data
  | i + 2, data =>
    match rd data i with
    | Except.ok x =>
      match wr data (i + 1) x with
      | Except.ok data1 => shiftUpLoop (i + 1) data1
      | Except.error e => Except.error e
    | Except.error e => Except.error e

/-- The buffer `b` of a vector of size `n` after the shift of a front insertion: slot 0 as
it was, the slots 1 to `n` with what the slots 0 to `n - 1` held, the slots behind as they
were. -/
def shifted (b : List T) (n : Nat) : List T := b.take 1 ++ b.take n ++ b.drop (n + 1)

/-- Method `PushFront(const T& value)`: `value` is read for `data_[0] = value`, after the
growth step and the shift. -/
def PushFront (fresh : Nat → T) (v : MyVector T) (value : Ref T) : Res (MyVector T) :=
  match growIfFull fresh v with
  | Except.ok v1 =>
    let v2 : MyVector T := { v1 with size_ := v1.size_ + 1 }
    match shiftUpLoop v2.size_ v2.data_ with
    | Except.ok data =>
      match value.read (callBuffer v data) with
      | Except.ok x =>
        match wr data 0 x with
        | Except.ok data1 => Except.ok { v2 with data_ := data1 }
        | Except.error e => Except.error e
      | Except.error e => Except.error e
    | Except.error e => Except.error e
  | Except.error e => Except.error e

/-- Loop `for (i = i0; i < size_ - 1; ++i) data_[i] = data_[i + 1];` with `k`
iterations left. -/
def shiftDownLoop : Nat → Nat → List T → Res (List T)
  | 0, _, data => Except.ok data
  | k + 1, i, data =>
    match rd data (i + 1) with
    | Except.ok x =>
      match wr data i x with
      | Except.ok data1 => shiftDownLoop k (i + 1) data1
      | Except.error e => Except.error e
    | Except.error e => Except.error e

/-- Method `PopFront()`. -/
def PopFront (fresh : Nat → T) (v : MyVector T) : Res (MyVector T) :=
  if v.size_ ≠ 0 then
    match shiftDownLoop (v.size_ - 1) 0 v.data_ with
    | Except.ok data => shrinkIfSparse fresh { v with size_ := v.size_ - 1, data_ := data }
    | Except.error e => Except.error e
  else Except.error Fault.assertion

/-- Read only `operator[](index) const`. -/
def indexConst (v : MyVector T) (index : Nat) : Res T :=
  if index < v.size_ then rd v.data_ index else Except.error Fault.assertion

/-- Mutable `operator[](index)`, used to read the slot. -/
def indexMut (v : MyVector T) (index : Nat) : Res T :=
  if index < v.size_ then rd v.data_ index else Except.error Fault.assertion

/-- Mutable `operator[](index)`, used to store `y` through the reference. -/
def indexAssign (v : MyVector T) (index : Nat) (y : T) : Res (MyVector T) :=
  if index < v.size_ then
    match wr v.data_ index y with
    | Except.ok data => Except.ok { v with data_ := data }
    | Except.error e => Except.error e
  else Except.error Fault.assertion

/-- Method `EmplaceBack(Args&&... args)`; `ctor` is the constructor of `T` that
`T(std::forward<Args>(args)...)` calls, on the values the arguments have after the growth
step. -/
def EmplaceBack (fresh : Nat → T) {A : Type} (ctor : A → T) (v : MyVector T)
    (args : ArgPack T A) : Res (MyVector T) :=
  match growIfFull fresh v with
  | Except.ok v1 =>
    match args (callBuffer v v1.data_) with
    | Except.ok a =>
      match wr v1.data_ v1.size_ (ctor a) with
      | Except.ok data => Except.ok { v1 with size_ := v1.size_ + 1, data_ := data }
      | Except.error e => Except.error e
    | Except.error e => Except.error e
  | Except.error e => Except.error e

/-- Method `EmplaceFront(Args&&... args)`; the arguments are read after the growth step and the
shift. -/
def EmplaceFront (fresh : Nat → T) {A : Type} (ctor : A → T) (v : MyVector T)
    (args : ArgPack T A) : Res (MyVector T) :=
  match growIfFull fresh v with
  | Except.ok v1 =>
    let v2 : MyVector T := { v1 with size_ := v1.size_ + 1 }
    match shiftUpLoop v2.size_ v2.data_ with
    | Except.ok data =>
      match args (callBuffer v data) with
      | Except.ok a =>
        match wr data 0 (ctor a) with
        | Except.ok data1 => Except.ok { v2 with data_ := data1 }
        | Except.error e => Except.error e
      | Except.error e => Except.error e
    | Except.error e => Except.error e
  | Except.error e => Except.error e

/-- Conversion of a `size_t` to `int` (32 bit, two's complement). -/
def toInt (i : Nat) : Int :=
  if i % 4294967296 < 2147483648 then ((i % 4294967296 : Nat) : Int)
  else ((i % 4294967296 : Nat) : Int) - 4294967296

/-- Loop of `Find`: `for (i = i0; i < size_; i++) if (data_[i] == value) return i;`
with `k` iterations left, then `return -1`. -/
def findLoop [DecidableEq T] (value : T) : Nat → Nat → List T → Res Int
  | 0, _, _ => Except.ok (-1)
  | k + 1, i, data =>
    match rd data i with
    | Except.ok x => if x = value then Except.ok (toInt i) else findLoop value k (i + 1) data
    | Except.error e => Except.error e

/-- Method `Find(value)`. -/
def Find [DecidableEq T] (v : MyVector T) (value : T) : Res Int :=
  findLoop value v.size_ 0 v.data_

/-- Live elements: the slots at the indices `[0, size_)`. -/
def live (v : MyVector T) : List T := v.data_.take v.size_

/-- Representation invariant. -/
def Inv (v : MyVector T) : Prop :=
  v.size_ ≤ v.allocated_size_ ∧ 1 ≤ v.allocated_size_ ∧ v.data_.length = v.allocated_size_

instance (v : MyVector T) : Decidable (Inv v) := by
  unfold Inv; infer_instance

/-- A sequence of calls `v.PushBack(x)`, as the loops of the tests in `main` make them; the
`k`-th call finds the content `fresh k` in the buffer that its `new` delivers. -/
def pushBackAll (fresh : Nat → Nat → T) (v : MyVector T) : List (Ref T) → Res (MyVector T)
  | [] => Except.ok v
  | x :: xs =>
    match PushBack (fresh 0) v x with
    | Except.ok v1 => pushBackAll (fun k => fresh (k + 1)) v1 xs
    | Except.error e => Except.error e

/-- States a program can reach: the results of the two constructors, closed
under the public operations that return without a fault. -/
inductive Reachable : MyVector T → Prop
  | default (fresh : Nat → T) : Reachable (mkDefault fresh)
  | sized (fresh : Nat → T) (n : Nat) (value : T) (v : MyVector T) :
      mkSized fresh n value = Except.ok v → Reachable v
  | pushBack (fresh : Nat → T) (v : MyVector T) (x : Ref T) (v1 : MyVector T) :
      Reachable v → PushBack fresh v x = Except.ok v1 → Reachable v1
  | popBack (fresh : Nat → T) (v v1 : MyVector T) :
      Reachable v → PopBack fresh v = Except.ok v1 → Reachable v1
  | pushFront (fresh : Nat → T) (v : MyVector T) (x : Ref T) (v1 : MyVector T) :
      Reachable v → PushFront fresh v x = Except.ok v1 → Reachable v1
  | popFront (fresh : Nat → T) (v v1 : MyVector T) :
      Reachable v → PopFront fresh v = Except.ok v1 → Reachable v1
  | emplaceBack (fresh : Nat → T) (A : Type) (ctor : A → T) (v : MyVector T)
      (args : ArgPack T A) (v1 : MyVector T) :
      Reachable v → EmplaceBack fresh ctor v args = Except.ok v1 → Reachable v1
  | emplaceFront (fresh : Nat → T) (A : Type) (ctor : A → T) (v : MyVector T)
      (args : ArgPack T A) (v1 : MyVector T) :
      Reachable v → EmplaceFront fresh ctor v args = Except.ok v1 → Reachable v1
  | indexAssign (v : MyVector T) (i : Nat) (y : T) (v1 : MyVector T) :
      Reachable v → indexAssign v i y = Except.ok v1 → Reachable v1
  | copyCtor (fresh : Nat → T) (o v1 : MyVector T) :
      Reachable o → copyCtor fresh o = Except.ok v1 → Reachable v1
  | copyAssign (fresh : Nat → T) (v o v1 : MyVector T) :
      Reachable v → Reachable o → copyAssign fresh v o = Except.ok v1 → Reachable v1
  | copyAssignSelf (fresh : Nat → T) (v v1 : MyVector T) :
      Reachable v → copyAssignSelf fresh v = Except.ok v1 → Reachable v1
  | moveCtorDst (fresh : Nat → T) (o : MyVector T) :
      Reachable o → Reachable (moveCtor fresh o).1
  | moveCtorSrc (fresh : Nat → T) (o : MyVector T) :
      Reachable o → Reachable (moveCtor fresh o).2
  | moveAssignDst (fresh : Nat → T) (v o : MyVector T) :
      Reachable v → Reachable o → Reachable (moveAssign fresh v o).1
  | moveAssignSrc (fresh : Nat → T) (v o : MyVector T) :
      Reachable v → Reachable o → Reachable (moveAssign fresh v o).2

/-- The content of a buffer that `new` delivers with every slot 0. -/
def zeros : Nat → Int := fun _ => 0

/-- The content of a buffer that `new int[n]` delivers with a different value in every slot:
slot `i` holds `100 + i`. -/
def junk : Nat → Int := fun i => 100 + (i : Int)

/-- A full vector of two elements, as left by two `PushBack` on `MyVector<int>()`. -/
def fullPair : MyVector Int := { size_ := 2, allocated_size_ := 2, data_ := [5, 6] }

/-- A vector with one live element in four slots. -/
def sparseOne : MyVector Int := { size_ := 1, allocated_size_ := 4, data_ := [1, 0, 0, 0] }

/-- A vector with three live elements in eight slots. -/
def threeOfEight : MyVector Int :=
  { size_ := 3, allocated_size_ := 8, data_ := [1, 2, 3, 0, 0, 0, 0, 0] }

/-- The vector of the `Find` test of `main`: the elements 0, 1, 2, 1. -/
def findSample : MyVector Int := { size_ := 4, allocated_size_ := 4, data_ := [0, 1, 2, 1] }

/-- The values pushed by the relocation test of `main`: 0, 1, ..., 1024. -/
def relocInput : List Int := (List.range 1025).map Int.ofNat

/-- The capacity is a power of two, and more than half of it is in use unless it is 1. -/
def PowCap (v : MyVector T) : Prop :=
  ∃ k, v.allocated_size_ = 2 ^ k ∧ (k = 0 ∨ 2 ^ (k - 1) < v.size_)

/-! ### Objects and buffers in memory

Copy and move act on two objects and on the buffers they point to.  For them the objects are
placed in a memory: every object has a name, its member `data_` is the address of a buffer of
the heap, and the address a `new` returns is an argument of the operation, any address at
which no buffer is allocated at that moment. -/

/-- An object of class `MyVector<T>` as it lies in memory: `data_` is the address of its
buffer. -/
structure VecObj where
  size_ : Nat
  allocated_size_ : Nat
  data_ : Nat
  deriving DecidableEq, Repr

/-- Memory: the `MyVector` objects of a program by name, and the heap, the buffer allocated at
an address, `none` at an address at which no buffer is allocated. -/
structure Mem (T : Type) where
  obj : Nat → VecObj
  heap : Nat → Option (List T)

/-- Assignment to the members of the object named `t`. -/
def Mem.setObj (m : Mem T) (t : Nat) (o : VecObj) : Mem T :=
  { m with obj := fun k => if k = t then o else m.obj k }

/-- Replacement of what the heap holds at the address `a`. -/
def Mem.setBuf (m : Mem T) (a : Nat) (b : Option (List T)) : Mem T :=
  { m with heap := fun k => if k = a then b else m.heap k }

/-- Allocation `new T[n]` that returns the address `a`, with the content `fresh`. -/
def Mem.newAt (fresh : Nat → T) (m : Mem T) (a n : Nat) : Mem T :=
  m.setBuf a (some (newArray fresh n))

/-- Release `delete[] p` of the buffer at the address `a`. -/
def Mem.deleteAt (m : Mem T) (a : Nat) : Res (Mem T) :=
  match m.heap a with
  | some _ => Except.ok (m.setBuf a none)
  | none => Except.error Fault.outOfBounds

/-- Read of slot `i` of the buffer at the address `a`. -/
def Mem.load (m : Mem T) (a i : Nat) : Res T :=
  match m.heap a with
  | some b => rd b i
  | none => Except.error Fault.outOfBounds

/-- Write of `x` to slot `i` of the buffer at the address `a`. -/
def Mem.store (m : Mem T) (a i : Nat) (x : T) : Res (Mem T) :=
  match m.heap a with
  | some b =>
    match wr b i x with
    | Except.ok b1 => Except.ok (m.setBuf a (some b1))
    | Except.error e => Except.error e
  | none => Except.error Fault.outOfBounds

/-- Loop `for (i = i0; i < size_; i++) data_[i] = other.data_[i];` of the object `t` with the
argument `o`, with `k` iterations left. -/
def Mem.copyLoop (t o : Nat) : Nat → Nat → Mem T → Res (Mem T)
  | 0, _, m => Except.ok m
  | k + 1, i, m =>
    match m.load (m.obj o).data_ i with
    | Except.ok x =>
      match m.store (m.obj t).data_ i x with
      | Except.ok m1 => Mem.copyLoop t o k (i + 1) m1
      | Except.error e => Except.error e
    | Except.error e => Except.error e

/-- Copy constructor `MyVector(const MyVector& other)` of the new object `t` from the object
`o`; `new` returns `a`. -/
def Mem.copyCtor (fresh : Nat → T) (m : Mem T) (t o a : Nat) : Res (Mem T) :=
  let size_ := (m.obj o).size_
  let allocated_size_ := (m.obj o).allocated_size_
  let m1 := m.newAt fresh a allocated_size_
  let m2 := m1.setObj t { size_ := size_, allocated_size_ := allocated_size_, data_ := a }
  Mem.copyLoop t o (m2.obj t).size_ 0 m2

/-- Copy assignment `operator=(const MyVector& other)` of the object `t` from the object `o`,
which may be `t` itself; `new`, if called, returns `a`. -/
def Mem.copyAssign (fresh : Nat → T) (m : Mem T) (t o a : Nat) : Res (Mem T) :=
  let r : Res (Mem T) :=
    if (m.obj t).allocated_size_ ≠ (m.obj o).allocated_size_ then
      let m1 := m.setObj t { m.obj t with allocated_size_ := (m.obj o).allocated_size_ }
      match m1.deleteAt (m1.obj t).data_ with
      | Except.ok m2 =>
        Except.ok
          ((m2.newAt fresh a (m2.obj t).allocated_size_).setObj t { m2.obj t with data_ := a })
      | Except.error e => Except.error e
    else Except.ok m
  match r with
  | Except.ok m3 =>
    let m4 := m3.setObj t { m3.obj t with size_ := (m3.obj o).size_ }
    Mem.copyLoop t o (m4.obj t).size_ 0 m4
  | Except.error e => Except.error e

/-- Move constructor `MyVector(MyVector&& other)` of the new object `t` from the object `o`;
`new` returns `a`. -/
def Mem.moveCtor (fresh : Nat → T) (m : Mem T) (t o a : Nat) : Mem T :=
  let m1 := m.setObj t { size_ := (m.obj o).size_, allocated_size_ := (m.obj o).allocated_size_,
                         data_ := (m.obj o).data_ }
  let m2 := m1.setObj o { m1.obj o with size_ := 0 }
  let m3 := m2.setObj o { m2.obj o with allocated_size_ := 1 }
  (m3.newAt fresh a 1).setObj o { m3.obj o with data_ := a }

/-- Move assignment `operator=(MyVector&& other)` of the object `t` from the object `o`; `new`
returns `a`. -/
def Mem.moveAssign (fresh : Nat → T) (m : Mem T) (t o a : Nat) : Res (Mem T) :=
  match m.deleteAt (m.obj t).data_ with
  | Except.ok m0 =>
    let m1 := m0.setObj t { m0.obj t with size_ := (m0.obj o).size_ }
    let m2 := m1.setObj t { m1.obj t with allocated_size_ := (m1.obj o).allocated_size_ }
    let m3 := m2.setObj t { m2.obj t with data_ := (m2.obj o).data_ }
    let m4 := m3.setObj o { m3.obj o with size_ := 0 }
    let m5 := m4.setObj o { m4.obj o with allocated_size_ := 1 }
    Except.ok ((m5.newAt fresh a 1).setObj o { m5.obj o with data_ := a })
  | Except.error e => Except.error e

/-- Read only `operator[](index) const` of the object `t`. -/
def Mem.indexConst (m : Mem T) (t index : Nat) : Res T :=
  if index < (m.obj t).size_ then m.load (m.obj t).data_ index
  else Except.error Fault.assertion

/-- Mutable `operator[](index)` of the object `t`, used to store `y` through the reference. -/
def Mem.indexAssign (m : Mem T) (t index : Nat) (y : T) : Res (Mem T) :=
  if index < (m.obj t).size_ then m.store (m.obj t).data_ index y
  else Except.error Fault.assertion

/-- The vector an object stands for: its members with the content of the buffer it points to;
`none` when it points to no allocated buffer. -/
def Mem.view (m : Mem T) (t : Nat) : Option (MyVector T) :=
  match m.heap (m.obj t).data_ with
  | some b =>
    some { size_ := (m.obj t).size_, allocated_size_ := (m.obj t).allocated_size_, data_ := b }
  | none => none

/-- The memory of the move test and of the copy test of `main` in small: the object 0 is `v`
after `PushBack` of 0, 1, 2, with its buffer at the address 10; the object 1 is a default
constructed `other`, with its buffer at the address 11. -/
def testMem : Mem Int :=
  { obj := fun k =>
      if k = 0 then { size_ := 3, allocated_size_ := 4, data_ := 10 }
      else { size_ := 0, allocated_size_ := 1, data_ := 11 },
    heap := fun a =>
      if a = 10 then some [0, 1, 2, 0] else if a = 11 then some [0] else none }

/-- The vector `v` of the move test of `main`: 0, 1, 2 pushed on `MyVector<int>()`. -/
def threeOfFour : MyVector Int := { size_ := 3, allocated_size_ := 4, data_ := [0, 1, 2, 0] }

/-- The element type of the emplace test of `main`: `struct MyStruct` with its two fields. -/
structure MyStruct where
  i_field : Int
  s_field : String
  deriving DecidableEq, Repr

/-- Constructor `MyStruct()`: `i_field(0), s_field("<EMPTY>")`. -/
instance : Inhabited MyStruct := ⟨{ i_field := 0, s_field := "<EMPTY>" }⟩

/-- Constructor `MyStruct(int i_field, std::string s_field)`. -/
def MyStruct.ofFields (args : Int × String) : MyStruct :=
  { i_field := args.1, s_field := args.2 }

/-- The content of a buffer that `new MyStruct[n]` delivers: every slot holds `MyStruct()`. -/
def structFresh : Nat → MyStruct := fun _ => default

/-- The emplace test of `main`: `EmplaceBack(MyStruct())`, `EmplaceBack()`,
`EmplaceBack(42, "4242")`, `EmplaceFront(MyStruct())`, `EmplaceFront()`,
`EmplaceFront(1111, "2222")` on `MyVector<MyStruct>()`; no argument refers to the buffer. -/
def emplaceTest : Res (MyVector MyStruct) :=
  match EmplaceBack structFresh (fun s : MyStruct => s) (mkDefault structFresh)
    (ArgPack.values default) with
  | Except.error e => Except.error e
  | Except.ok v1 =>
  match EmplaceBack structFresh (fun _ : Unit => (default : MyStruct)) v1 (ArgPack.values ()) with
  | Except.error e => Except.error e
  | Except.ok v2 =>
  match EmplaceBack structFresh MyStruct.ofFields v2 (ArgPack.values (42, "4242")) with
  | Except.error e => Except.error e
  | Except.ok v3 =>
  match EmplaceFront structFresh (fun s : MyStruct => s) v3 (ArgPack.values default) with
  | Except.error e => Except.error e
  | Except.ok v4 =>
  match EmplaceFront structFresh (fun _ : Unit => (default : MyStruct)) v4
    (ArgPack.values ()) with
  | Except.error e => Except.error e
  | Except.ok v5 => EmplaceFront structFresh MyStruct.ofFields v5 (ArgPack.values (1111, "2222"))

/-- The vector `MyVector<int>(2, 7)`. -/
def sizedTwo : MyVector Int := { size_ := 2, allocated_size_ := 5, data_ := [7, 7, 0, 0, 0] }

/-- The vector `MyVector<int>(2, 7)` after one `PopBack()`. -/
def sizedTwoPopped : MyVector Int :=
  { size_ := 1, allocated_size_ := 5, data_ := [7, 7, 0, 0, 0] }

/-- A removal that reallocates is at once followed by an insertion that reallocates, or an
insertion that reallocates is at once followed by a removal that reallocates: `v1` is the state
between the two operations and `v2` the state after them; `f1` and `f2` are the contents that
the two allocations deliver. -/
def Oscillates (v : MyVector T) (x : Ref T) : Prop :=
  ∃ (f1 f2 : Nat → T) (v1 v2 : MyVector T),
    ((PopBack f1 v = Except.ok v1 ∨ PopFront f1 v = Except.ok v1) ∧
      v1.allocated_size_ < v.allocated_size_ ∧
      (PushBack f2 v1 x = Except.ok v2 ∨ PushFront f2 v1 x = Except.ok v2) ∧
      v1.allocated_size_ < v2.allocated_size_) ∨
    ((PushBack f1 v x = Except.ok v1 ∨ PushFront f1 v x = Except.ok v1) ∧
      v.allocated_size_ < v1.allocated_size_ ∧
      (PopBack f2 v1 = Except.ok v2 ∨ PopFront f2 v1 = Except.ok v2) ∧
      v2.allocated_size_ < v1.allocated_size_)

/-- The vector 5, 6, 7 in four slots, of which the reference argument `v[1]` is taken. -/
def threeFree : MyVector Int := { size_ := 3, allocated_size_ := 4, data_ := [5, 6, 7, 0] }

/-- The full vector the default constructor and `PushBack(42)` give. -/
def fullOne : MyVector Int := { size_ := 1, allocated_size_ := 1, data_ := [42] }

/-! ## Buffer accesses and loops -/

section Lemmas

variable (fresh : Nat → T)

theorem rd_of_lt {buf : List T} {i : Nat} (h : i < buf.length) :
    rd buf i = Except.ok buf[i] := by
  simp [rd, List.getElem?_eq_getElem h]

theorem wr_of_lt {buf : List T} {i : Nat} (x : T) (h : i < buf.length) :
    wr buf i x = Except.ok (buf.set i x) := by
  simp [wr, h]

theorem length_newArray (n : Nat) : (newArray fresh n : List T).length = n := by
  simp [newArray]

theorem getElem?_newArray (n j : Nat) :
    (newArray fresh n)[j]? = if j < n then some (fresh j) else none := by
  unfold newArray
  rw [List.getElem?_map]
  by_cases hj : j < n
  · rw [List.getElem?_range hj, if_pos hj]
    rfl
  · rw [if_neg hj, List.getElem?_eq_none (by simpa using hj)]
    rfl

theorem fillLoop_spec (value : T) :
    ∀ (k i : Nat) (data : List T), i + k ≤ data.length →
      ∃ r, fillLoop value k i data = Except.ok r ∧ r.length = data.length ∧
        ∀ j, r[j]? = if i ≤ j ∧ j < i + k then some value else data[j]?
  | 0, i, data, _ => ⟨data, rfl, rfl, fun j => by
      rw [if_neg (by omega)]⟩
  | k + 1, i, data, h => by
    have hi : i < data.length := by omega
    obtain ⟨r, hr, hlen, hget⟩ :=
      fillLoop_spec value k (i + 1) (data.set i value) (by simp; omega)
    refine ⟨r, ?_, by simpa using hlen, fun j => ?_⟩
    · simp [fillLoop, wr_of_lt value hi, hr]
    · rw [hget j, List.getElem?_set]
      by_cases h1 : i = j
      · subst h1; simp [hi]
      · by_cases h2 : i + 1 ≤ j ∧ j < i + 1 + k
        · have : i ≤ j ∧ j < i + (k + 1) := by omega
          simp [h2, this]
        · have : ¬ (i ≤ j ∧ j < i + (k + 1)) := by omega
          simp [h1, h2, this]

theorem copyLoop_spec (src : List T) :
    ∀ (k i : Nat) (data : List T), i + k ≤ src.length → i + k ≤ data.length →
      ∃ r, copyLoop src k i data = Except.ok r ∧ r.length = data.length ∧
        ∀ j, r[j]? = if i ≤ j ∧ j < i + k then src[j]? else data[j]?
  | 0, i, data, _, _ => ⟨data, rfl, rfl, fun j => by
      rw [if_neg (by omega)]⟩
  | k + 1, i, data, hs, h => by
    have hi : i < data.length := by omega
    have his : i < src.length := by omega
    obtain ⟨r, hr, hlen, hget⟩ :=
      copyLoop_spec src k (i + 1) (data.set i src[i]) (by omega) (by simp; omega)
    refine ⟨r, ?_, by simpa using hlen, fun j => ?_⟩
    · simp [copyLoop, rd_of_lt his, wr_of_lt _ hi, hr]
    · rw [hget j, List.getElem?_set]
      by_cases h1 : i = j
      · subst h1; simp [hi, List.getElem?_eq_getElem his]
      · by_cases h2 : i + 1 ≤ j ∧ j < i + 1 + k
        · have : i ≤ j ∧ j < i + (k + 1) := by omega
          simp [h2, this]
        · have : ¬ (i ≤ j ∧ j < i + (k + 1)) := by omega
          simp [h1, h2, this]

theorem selfCopyLoop_spec :
    ∀ (k i : Nat) (data : List T), i + k ≤ data.length →
      selfCopyLoop k i data = Except.ok data
  | 0, _, _, _ => rfl
  | k + 1, i, data, h => by
    have hi : i < data.length := by omega
    have hset : data.set i data[i] = data := by
      apply List.ext_getElem?
      intro j
      rw [List.getElem?_set]
      by_cases h1 : i = j
      · subst h1; simp [hi]
      · simp [h1]
    simp only [selfCopyLoop, rd_of_lt hi, wr_of_lt _ hi, hset]
    exact selfCopyLoop_spec k (i + 1) data (by omega)

theorem shiftDownLoop_spec :
    ∀ (k i : Nat) (data : List T), i + k + 1 ≤ data.length →
      ∃ r, shiftDownLoop k i data = Except.ok r ∧ r.length = data.length ∧
        ∀ j, r[j]? = if i ≤ j ∧ j < i + k then data[j + 1]? else data[j]?
  | 0, i, data, _ => ⟨data, rfl, rfl, fun j => by
      rw [if_neg (by omega)]⟩
  | k + 1, i, data, h => by
    have hi : i < data.length := by omega
    have hi1 : i + 1 < data.length := by omega
    obtain ⟨r, hr, hlen, hget⟩ :=
      shiftDownLoop_spec k (i + 1) (data.set i data[i + 1]) (by simp; omega)
    refine ⟨r, ?_, by simpa using hlen, fun j => ?_⟩
    · simp [shiftDownLoop, rd_of_lt hi1, wr_of_lt _ hi, hr]
    · rw [hget j, List.getElem?_set, List.getElem?_set]
      by_cases h1 : i = j
      · subst h1
        simp [hi, List.getElem?_eq_getElem hi1]
      · by_cases h2 : i + 1 ≤ j ∧ j < i + 1 + k
        · have h3 : i ≤ j ∧ j < i + (k + 1) := by omega
          have h4 : ¬ i = j + 1 := by omega
          simp [h2, h3, h4]
        · have h3 : ¬ (i ≤ j ∧ j < i + (k + 1)) := by omega
          simp [h1, h2, h3]

theorem shiftUpLoop_spec :
    ∀ (i : Nat) (data : List T), i ≤ data.length →
      ∃ r, shiftUpLoop i data = Except.ok r ∧ r.length = data.length ∧
        ∀ j, r[j]? = if 1 ≤ j ∧ j < i then data[j - 1]? else data[j]?
  | 0, data, _ => ⟨data, rfl, rfl, fun j => by rw [if_neg (by omega)]⟩
  | 1, data, _ => ⟨data, rfl, rfl, fun j => by rw [if_neg (by omega)]⟩
  | i + 2, data, h => by
    have hi : i < data.length := by omega
    have hi1 : i + 1 < data.length := by omega
    obtain ⟨r, hr, hlen, hget⟩ :=
      shiftUpLoop_spec (i + 1) (data.set (i + 1) data[i]) (by simp; omega)
    refine ⟨r, ?_, by simpa using hlen, fun j => ?_⟩
    · simp [shiftUpLoop, rd_of_lt hi, wr_of_lt _ hi1, hr]
    · rw [hget j, List.getElem?_set, List.getElem?_set]
      by_cases h1 : i + 1 = j
      · subst h1
        simp [hi1, List.getElem?_eq_getElem hi]
      · by_cases h2 : 1 ≤ j ∧ j < i + 1
        · have h3 : 1 ≤ j ∧ j < i + 2 := by omega
          have h4 : ¬ i + 1 = j - 1 := by omega
          simp [h2, h3, h4]
        · have h3 : ¬ (1 ≤ j ∧ j < i + 2) := by omega
          simp [h1, h2, h3]

theorem findLoop_spec [DecidableEq T] (value : T) :
    ∀ (k i : Nat) (data : List T), i + k ≤ data.length →
      (findLoop value k i data = Except.ok (-1) ∧
          ∀ j, i ≤ j → j < i + k → data[j]? ≠ some value) ∨
      (∃ m, i ≤ m ∧ m < i + k ∧ data[m]? = some value ∧
          (∀ j, i ≤ j → j < m → data[j]? ≠ some value) ∧
          findLoop value k i data = Except.ok (toInt m))
  | 0, i, data, _ => Or.inl ⟨rfl, fun j h1 h2 => by omega⟩
  | k + 1, i, data, h => by
    have hi : i < data.length := by omega
    by_cases hx : data[i] = value
    · refine Or.inr ⟨i, le_refl i, by omega, ?_, fun j h1 h2 => by omega, ?_⟩
      · rw [List.getElem?_eq_getElem hi, hx]
      · simp [findLoop, rd_of_lt hi, hx]
    · have hne : data[i]? ≠ some value := by
        rw [List.getElem?_eq_getElem hi]
        intro hc
        exact hx (Option.some.inj hc)
      have hstep : findLoop value (k + 1) i data = findLoop value k (i + 1) data := by
        simp [findLoop, rd_of_lt hi, hx]
      rcases findLoop_spec value k (i + 1) data (by omega) with ⟨hr, hall⟩ | ⟨m, h1, h2, h3, h4, h5⟩
      · refine Or.inl ⟨by rw [hstep, hr], fun j hj1 hj2 => ?_⟩
        by_cases hji : j = i
        · subst hji; exact hne
        · exact hall j (by omega) (by omega)
      · refine Or.inr ⟨m, by omega, by omega, h3, fun j hj1 hj2 => ?_, by rw [hstep, h5]⟩
        by_cases hji : j = i
        · subst hji; exact hne
        · exact h4 j (by omega) hj2

/-! ## Closed forms of the loops started at index 0 -/

theorem fillLoop_zero (value : T) (k : Nat) (data : List T) (h : k ≤ data.length) :
    fillLoop value k 0 data = Except.ok (List.replicate k value ++ data.drop k) := by
  obtain ⟨r, hr, _, hget⟩ := fillLoop_spec value k 0 data (by omega)
  rw [hr]
  congr 1
  apply List.ext_getElem?
  intro j
  rw [hget j, List.getElem?_append]
  by_cases hj : j < k
  · simp [hj]
  · have : k + (j - k) = j := by omega
    simp [hj, List.getElem?_drop, this]

theorem copyLoop_zero (src : List T) (k : Nat) (data : List T)
    (hs : k ≤ src.length) (h : k ≤ data.length) :
    copyLoop src k 0 data = Except.ok (src.take k ++ data.drop k) := by
  obtain ⟨r, hr, _, hget⟩ := copyLoop_spec src k 0 data (by omega) (by omega)
  rw [hr]
  congr 1
  apply List.ext_getElem?
  intro j
  rw [hget j, List.getElem?_append]
  by_cases hj : j < k
  · simp [hj, Nat.min_eq_left hs, List.getElem?_take]
  · have : k + (j - k) = j := by omega
    simp [hj, Nat.min_eq_left hs, List.getElem?_drop, this]

theorem shiftDownLoop_zero (k : Nat) (data : List T) (h : k + 1 ≤ data.length) :
    shiftDownLoop k 0 data = Except.ok ((data.drop 1).take k ++ data.drop k) := by
  obtain ⟨r, hr, _, hget⟩ := shiftDownLoop_spec k 0 data (by omega)
  rw [hr]
  congr 1
  apply List.ext_getElem?
  intro j
  have hlen : ((data.drop 1).take k).length = k := by simp; omega
  rw [hget j, List.getElem?_append, hlen]
  by_cases hj : j < k
  · simp [hj, List.getElem?_take, List.getElem?_drop, Nat.add_comm]
  · have : k + (j - k) = j := by omega
    simp [hj, List.getElem?_drop, this]

theorem shiftUpLoop_closed (i : Nat) (data : List T) (h : i + 1 ≤ data.length) :
    shiftUpLoop (i + 1) data = Except.ok (data.take 1 ++ data.take i ++ data.drop (i + 1)) := by
  obtain ⟨r, hr, _, hget⟩ := shiftUpLoop_spec (i + 1) data h
  rw [hr]
  congr 1
  apply List.ext_getElem?
  intro j
  rw [hget j]
  rcases j with _ | j
  · have : 0 < data.length := by omega
    cases data with
    | nil => simp at this
    | cons a t => simp
  · have h1 : (data.take 1 ++ data.take i).length = i + 1 := by
      simp; omega
    by_cases hj : j + 1 < i + 1
    · have h2 : 1 ≤ j + 1 ∧ j + 1 < i + 1 := by omega
      have h3 : (data.take 1).length = 1 := by simp; omega
      rw [if_pos h2, List.getElem?_append_left (by rw [h1]; exact hj),
        List.getElem?_append_right (by rw [h3]; omega), h3, List.getElem?_take]
      have h4 : j + 1 - 1 = j := by omega
      have h5 : j < i := by omega
      rw [h4, if_pos h5]
    · have h2 : ¬ (1 ≤ j + 1 ∧ j + 1 < i + 1) := by omega
      rw [if_neg h2, List.getElem?_append_right (by rw [h1]; omega), h1,
        List.getElem?_drop]
      congr 1
      omega

/-! ## The operations on a vector that satisfies the invariant -/

theorem Relocate_spec (v : MyVector T) (n : Nat)
    (h1 : v.size_ ≤ v.data_.length) (h2 : v.size_ ≤ n) :
    ∃ v1, Relocate fresh v n = Except.ok v1 ∧ v1.size_ = v.size_ ∧ v1.allocated_size_ = n ∧
      v1.data_.length = n ∧ live v1 = live v := by
  have hc := copyLoop_zero v.data_ v.size_ (newArray fresh n) h1 (by rw [length_newArray]; exact h2)
  refine ⟨{ v with allocated_size_ := n,
                   data_ := v.data_.take v.size_ ++ (newArray fresh n).drop v.size_ }, ?_, rfl, rfl, ?_, ?_⟩
  · simp only [Relocate, hc]
  · simp [length_newArray, Nat.min_eq_left h1]
    omega
  · simp only [live]
    rw [List.take_left' (by simp [Nat.min_eq_left h1])]

theorem growIfFull_spec (v : MyVector T) (h : Inv v) :
    ∃ v1, growIfFull fresh v = Except.ok v1 ∧ v1.size_ = v.size_ ∧
      v1.allocated_size_ = (if v.size_ = v.allocated_size_ then 2 * v.size_ else v.allocated_size_) ∧
      v1.data_.length = v1.allocated_size_ ∧ v1.size_ < v1.allocated_size_ ∧ live v1 = live v := by
  obtain ⟨h1, h2, h3⟩ := h
  by_cases hfull : v.size_ = v.allocated_size_
  · obtain ⟨v1, hr, hs, ha, hl, hlive⟩ :=
      Relocate_spec fresh v (v.size_ * 2) (by omega) (by omega)
    refine ⟨v1, by simp [growIfFull, hfull, ← hr], hs, ?_, by omega, by omega, hlive⟩
    rw [if_pos hfull, ha]
    omega
  · refine ⟨v, by simp [growIfFull, hfull], rfl, by rw [if_neg hfull], h3, by omega, rfl⟩

theorem shrinkIfSparse_spec (v : MyVector T)
    (h1 : v.size_ ≤ v.allocated_size_) (h2 : 1 ≤ v.allocated_size_)
    (h3 : v.data_.length = v.allocated_size_) :
    ∃ v1, shrinkIfSparse fresh v = Except.ok v1 ∧ Inv v1 ∧ v1.size_ = v.size_ ∧
      v1.allocated_size_ =
        (if v.size_ < v.allocated_size_ / 4 then v.allocated_size_ / 2 else v.allocated_size_) ∧
      live v1 = live v := by
  by_cases hs : v.size_ < v.allocated_size_ / 4
  · obtain ⟨v1, hr, hsz, ha, hl, hlive⟩ :=
      Relocate_spec fresh v (v.allocated_size_ / 2) (by omega) (by omega)
    refine ⟨v1, by simp [shrinkIfSparse, hs, hr], ⟨by omega, by omega, by omega⟩, hsz, ?_, hlive⟩
    rw [if_pos hs, ha]
  · exact ⟨v, by simp [shrinkIfSparse, hs], ⟨h1, h2, h3⟩, rfl, by rw [if_neg hs], rfl⟩

theorem take_succ_set (l : List T) (n : Nat) (x : T) (h : n < l.length) :
    (l.set n x).take (n + 1) = l.take n ++ [x] := by
  rw [List.take_succ, List.getElem?_set_self h]
  congr 1
  apply List.ext_getElem?
  intro j
  rw [List.getElem?_take, List.getElem?_take, List.getElem?_set]
  by_cases hj : j < n
  · have : ¬ n = j := by omega
    simp [hj, this]
  · simp [hj]

theorem PopBack_spec (v : MyVector T) (h : Inv v) (hne : v.size_ ≠ 0) :
    ∃ v1, PopBack fresh v = Except.ok v1 ∧ Inv v1 ∧ v1.size_ = v.size_ - 1 ∧
      v1.allocated_size_ =
        (if v.size_ - 1 < v.allocated_size_ / 4 then v.allocated_size_ / 2
         else v.allocated_size_) ∧
      live v1 = (live v).dropLast := by
  obtain ⟨h1, h2, h3⟩ := h
  obtain ⟨v1, hr, hinv, hsz, ha, hlive⟩ :=
    shrinkIfSparse_spec fresh { v with size_ := v.size_ - 1 } (by simp only; omega) h2 h3
  refine ⟨v1, by simp only [PopBack, hne, ne_eq, not_false_eq_true, if_true, hr], hinv, hsz, ha, ?_⟩
  rw [hlive]
  simp only [live]
  rw [List.dropLast_eq_take, List.take_take, List.length_take]
  congr 1
  omega

theorem PopFront_spec (v : MyVector T) (h : Inv v) (hne : v.size_ ≠ 0) :
    ∃ v1, PopFront fresh v = Except.ok v1 ∧ Inv v1 ∧ v1.size_ = v.size_ - 1 ∧
      v1.allocated_size_ =
        (if v.size_ - 1 < v.allocated_size_ / 4 then v.allocated_size_ / 2
         else v.allocated_size_) ∧
      live v1 = (live v).tail := by
  obtain ⟨h1, h2, h3⟩ := h
  have hs := shiftDownLoop_zero (v.size_ - 1) v.data_ (by omega)
  obtain ⟨v1, hr, hinv, hsz, ha, hlive⟩ :=
    shrinkIfSparse_spec fresh
      { v with size_ := v.size_ - 1,
               data_ := (v.data_.drop 1).take (v.size_ - 1) ++ v.data_.drop (v.size_ - 1) }
      (by simp only; omega) h2
      (by simp only [List.length_append, List.length_take, List.length_drop]; omega)
  refine ⟨v1, ?_, hinv, hsz, ha, ?_⟩
  · simp only [PopFront, hne, ne_eq, not_false_eq_true, if_true, hs, hr]
  · rw [hlive]
    simp only [live]
    rw [List.take_left' (by simp only [List.length_take, List.length_drop]; omega)]
    rw [← List.drop_one, List.drop_take]

theorem Ref.read_outside (x : T) (buf : Option (List T)) :
    (Ref.outside x).read buf = Except.ok x := by
  cases buf <;> rfl

theorem growIfFull_of_ne (v : MyVector T) (h : v.size_ ≠ v.allocated_size_) :
    growIfFull fresh v = Except.ok v := by
  simp [growIfFull, h]

theorem callBuffer_of_ne (v : MyVector T) (b : List T) (h : v.size_ ≠ v.allocated_size_) :
    callBuffer v b = some b := by
  simp [callBuffer, h]

theorem callBuffer_of_eq (v : MyVector T) (b : List T) (h : v.size_ = v.allocated_size_) :
    callBuffer v b = none := by
  simp [callBuffer, h]

theorem Ref.read_callBuffer (r : Ref T) (v : MyVector T) (b : List T) (h : r.Survives v) :
    r.read (callBuffer v b) = r.read (some b) := by
  cases r with
  | outside x => rw [Ref.read_outside, Ref.read_outside]
  | slot j => rw [callBuffer_of_ne v b h.2]

theorem Ref.read_slot_full (j : Nat) (v : MyVector T) (b : List T)
    (h : v.size_ = v.allocated_size_) :
    (Ref.slot j).read (callBuffer v b) = (Except.error Fault.outOfBounds : Res T) := by
  rw [callBuffer_of_eq v b h]
  rfl

theorem PushBack_eq_EmplaceBack (v : MyVector T) (r : Ref T) :
    PushBack fresh v r = EmplaceBack fresh (fun x => x) v r.read := rfl

theorem PushFront_eq_EmplaceFront (v : MyVector T) (r : Ref T) :
    PushFront fresh v r = EmplaceFront fresh (fun x => x) v r.read := rfl

theorem EmplaceBack_of_args {A : Type} (ctor : A → T) (v : MyVector T) (args : ArgPack T A)
    (a : A) (h : Inv v)
    (ha : ∀ g, growIfFull fresh v = Except.ok g → args (callBuffer v g.data_) = Except.ok a) :
    ∃ v1, EmplaceBack fresh ctor v args = Except.ok v1 ∧ Inv v1 ∧ v1.size_ = v.size_ + 1 ∧
      v1.allocated_size_ = (if v.size_ = v.allocated_size_ then 2 * v.size_ else v.allocated_size_) ∧
      live v1 = live v ++ [ctor a] := by
  obtain ⟨g, hg, hsz, hc, hl, hlt, hlive⟩ := growIfFull_spec fresh v h
  have hw : g.size_ < g.data_.length := by omega
  refine ⟨{ g with size_ := g.size_ + 1, data_ := g.data_.set g.size_ (ctor a) }, ?_, ?_, ?_, hc, ?_⟩
  · simp only [EmplaceBack, hg, ha g hg, wr_of_lt (ctor a) hw]
  · exact ⟨by simp only; omega, by simp only; omega, by simp only [List.length_set]; omega⟩
  · simp only; omega
  · simp only [live] at hlive ⊢
    rw [take_succ_set _ _ _ hw, hlive]

theorem EmplaceBack_of_fault {A : Type} (ctor : A → T) (v : MyVector T) (args : ArgPack T A)
    (e : Fault) (h : Inv v)
    (ha : ∀ g, growIfFull fresh v = Except.ok g → args (callBuffer v g.data_) = Except.error e) :
    EmplaceBack fresh ctor v args = Except.error e := by
  obtain ⟨g, hg, _⟩ := growIfFull_spec fresh v h
  simp only [EmplaceBack, hg, ha g hg]

theorem EmplaceBack_of_ok {A : Type} (ctor : A → T) (v : MyVector T) (args : ArgPack T A)
    (v1 : MyVector T) (h : Inv v) (hv : EmplaceBack fresh ctor v args = Except.ok v1) :
    ∃ a, Inv v1 ∧ v1.size_ = v.size_ + 1 ∧
      v1.allocated_size_ = (if v.size_ = v.allocated_size_ then 2 * v.size_ else v.allocated_size_) ∧
      live v1 = live v ++ [ctor a] := by
  obtain ⟨g, hg, _⟩ := growIfFull_spec fresh v h
  cases hargs : args (callBuffer v g.data_) with
  | error e =>
    rw [EmplaceBack_of_fault fresh ctor v args e h
      (fun g1 hg1 => by rw [hg] at hg1; cases hg1; exact hargs)] at hv
    cases hv
  | ok a =>
    obtain ⟨w, hw, facts⟩ := EmplaceBack_of_args fresh ctor v args a h
      (fun g1 hg1 => by rw [hg] at hg1; cases hg1; exact hargs)
    rw [hv] at hw
    cases hw
    exact ⟨a, facts⟩

theorem length_shifted (b : List T) (n : Nat) (h : n + 1 ≤ b.length) :
    (shifted b n).length = b.length := by
  simp only [shifted, List.length_append, List.length_take, List.length_drop]
  rw [Nat.min_eq_left (by omega : 1 ≤ b.length), Nat.min_eq_left (by omega : n ≤ b.length)]
  omega

theorem getElem?_shifted (b : List T) (n j : Nat) (h : n + 1 ≤ b.length) :
    (shifted b n)[j]? = if j = 0 then b[0]? else if j ≤ n then b[j - 1]? else b[j]? := by
  have h1 : (b.take 1).length = 1 := by simp; omega
  have h2 : (b.take 1 ++ b.take n).length = n + 1 := by
    simp only [List.length_append, List.length_take]
    rw [Nat.min_eq_left (by omega : 1 ≤ b.length), Nat.min_eq_left (by omega : n ≤ b.length)]
    omega
  unfold shifted
  by_cases hj0 : j = 0
  · subst hj0
    rw [if_pos rfl, List.append_assoc, List.getElem?_append_left (by rw [h1]; omega),
      List.getElem?_take]
    simp
  · rw [if_neg hj0]
    by_cases hjn : j ≤ n
    · rw [if_pos hjn, List.getElem?_append_left (by rw [h2]; omega),
        List.getElem?_append_right (by rw [h1]; omega), h1, List.getElem?_take]
      have : j - 1 < n := by omega
      simp [this]
    · rw [if_neg hjn, List.getElem?_append_right (by rw [h2]; omega), h2, List.getElem?_drop]
      congr 1
      omega

theorem take_shifted_set (b : List T) (n : Nat) (x : T) (h : n + 1 ≤ b.length) :
    ((shifted b n).set 0 x).take (n + 1) = x :: b.take n := by
  cases hd : b with
  | nil => rw [hd] at h; simp at h
  | cons a t =>
    have e1 : List.take 1 (a :: t) = [a] := by simp
    unfold shifted
    rw [e1]
    simp only [List.singleton_append, List.cons_append, List.set_cons_zero, List.take_succ_cons,
      List.nil_append]
    rw [List.take_left' (by simp; rw [hd] at h; simp at h; omega)]

theorem EmplaceFront_of_args {A : Type} (ctor : A → T) (v : MyVector T) (args : ArgPack T A)
    (a : A) (h : Inv v)
    (ha : ∀ g, growIfFull fresh v = Except.ok g →
      args (callBuffer v (shifted g.data_ g.size_)) = Except.ok a) :
    ∃ v1, EmplaceFront fresh ctor v args = Except.ok v1 ∧ Inv v1 ∧ v1.size_ = v.size_ + 1 ∧
      v1.allocated_size_ = (if v.size_ = v.allocated_size_ then 2 * v.size_ else v.allocated_size_) ∧
      live v1 = ctor a :: live v := by
  obtain ⟨g, hg, hsz, hc, hl, hlt, hlive⟩ := growIfFull_spec fresh v h
  have hw : g.size_ + 1 ≤ g.data_.length := by omega
  have hshift : shiftUpLoop (g.size_ + 1) g.data_ = Except.ok (shifted g.data_ g.size_) :=
    shiftUpLoop_closed g.size_ g.data_ hw
  have hlen := length_shifted g.data_ g.size_ hw
  have hpos : 0 < (shifted g.data_ g.size_).length := by omega
  refine ⟨{ g with size_ := g.size_ + 1, data_ := (shifted g.data_ g.size_).set 0 (ctor a) },
    ?_, ?_, ?_, hc, ?_⟩
  · simp only [EmplaceFront, hg, hshift, ha g hg, wr_of_lt (ctor a) hpos]
  · exact ⟨by simp only; omega, by simp only; omega, by simp only [List.length_set]; omega⟩
  · simp only; omega
  · simp only [live] at hlive ⊢
    rw [take_shifted_set _ _ _ hw, hlive]

theorem EmplaceFront_of_fault {A : Type} (ctor : A → T) (v : MyVector T) (args : ArgPack T A)
    (e : Fault) (h : Inv v)
    (ha : ∀ g, growIfFull fresh v = Except.ok g →
      args (callBuffer v (shifted g.data_ g.size_)) = Except.error e) :
    EmplaceFront fresh ctor v args = Except.error e := by
  obtain ⟨g, hg, hsz, hc, hl, hlt, hlive⟩ := growIfFull_spec fresh v h
  have hshift : shiftUpLoop (g.size_ + 1) g.data_ = Except.ok (shifted g.data_ g.size_) :=
    shiftUpLoop_closed g.size_ g.data_ (by omega)
  simp only [EmplaceFront, hg, hshift, ha g hg]

theorem EmplaceFront_of_ok {A : Type} (ctor : A → T) (v : MyVector T) (args : ArgPack T A)
    (v1 : MyVector T) (h : Inv v) (hv : EmplaceFront fresh ctor v args = Except.ok v1) :
    ∃ a, Inv v1 ∧ v1.size_ = v.size_ + 1 ∧
      v1.allocated_size_ = (if v.size_ = v.allocated_size_ then 2 * v.size_ else v.allocated_size_) ∧
      live v1 = ctor a :: live v := by
  obtain ⟨g, hg, _⟩ := growIfFull_spec fresh v h
  cases hargs : args (callBuffer v (shifted g.data_ g.size_)) with
  | error e =>
    rw [EmplaceFront_of_fault fresh ctor v args e h
      (fun g1 hg1 => by rw [hg] at hg1; cases hg1; exact hargs)] at hv
    cases hv
  | ok a =>
    obtain ⟨w, hw, facts⟩ := EmplaceFront_of_args fresh ctor v args a h
      (fun g1 hg1 => by rw [hg] at hg1; cases hg1; exact hargs)
    rw [hv] at hw
    cases hw
    exact ⟨a, facts⟩

theorem read_after_growth (v : MyVector T) (r : Ref T) (x : T) (hs : r.Survives v)
    (hx : r.read (some v.data_) = Except.ok x) :
    ∀ g, growIfFull fresh v = Except.ok g → r.read (callBuffer v g.data_) = Except.ok x := by
  intro g hg
  cases r with
  | outside y => rw [Ref.read_outside] at hx ⊢; exact hx
  | slot j =>
    rw [growIfFull_of_ne fresh v hs.2] at hg
    cases hg
    rw [callBuffer_of_ne v _ hs.2]
    exact hx

theorem read_after_shift (v : MyVector T) (r : Ref T) (x : T) (hs : r.Survives v)
    (hx : r.read (some (shifted v.data_ v.size_)) = Except.ok x) :
    ∀ g, growIfFull fresh v = Except.ok g →
      r.read (callBuffer v (shifted g.data_ g.size_)) = Except.ok x := by
  intro g hg
  cases r with
  | outside y => rw [Ref.read_outside] at hx ⊢; exact hx
  | slot j =>
    rw [growIfFull_of_ne fresh v hs.2] at hg
    cases hg
    rw [callBuffer_of_ne v _ hs.2]
    exact hx

theorem Ref.read_of_survives (r : Ref T) (v : MyVector T) (h : Inv v) (hs : r.Survives v) :
    ∃ x, r.read (some v.data_) = Except.ok x := by
  cases r with
  | outside x => exact ⟨x, rfl⟩
  | slot j =>
    obtain ⟨h1, _, h3⟩ := h
    have hlt : j < v.data_.length := by
      have := hs.1
      omega
    exact ⟨v.data_[j], rd_of_lt hlt⟩

theorem Ref.read_shifted_of_survives (r : Ref T) (v : MyVector T) (h : Inv v)
    (hs : r.Survives v) :
    ∃ x, r.read (some (shifted v.data_ v.size_)) = Except.ok x := by
  cases r with
  | outside x => exact ⟨x, rfl⟩
  | slot j =>
    obtain ⟨h1, _, h3⟩ := h
    have hs1 := hs.1
    have hs2 := hs.2
    have hlen := length_shifted v.data_ v.size_ (by omega)
    have hlt : j < (shifted v.data_ v.size_).length := by omega
    exact ⟨(shifted v.data_ v.size_)[j], rd_of_lt hlt⟩

theorem PushBack_spec (v : MyVector T) (r : Ref T) (x : T) (h : Inv v) (hs : r.Survives v)
    (hx : r.read (some v.data_) = Except.ok x) :
    ∃ v1, PushBack fresh v r = Except.ok v1 ∧ Inv v1 ∧ v1.size_ = v.size_ + 1 ∧
      v1.allocated_size_ = (if v.size_ = v.allocated_size_ then 2 * v.size_ else v.allocated_size_) ∧
      live v1 = live v ++ [x] :=
  EmplaceBack_of_args fresh (fun y => y) v r.read x h (read_after_growth fresh v r x hs hx)

theorem PushFront_spec (v : MyVector T) (r : Ref T) (x : T) (h : Inv v) (hs : r.Survives v)
    (hx : r.read (some (shifted v.data_ v.size_)) = Except.ok x) :
    ∃ v1, PushFront fresh v r = Except.ok v1 ∧ Inv v1 ∧ v1.size_ = v.size_ + 1 ∧
      v1.allocated_size_ = (if v.size_ = v.allocated_size_ then 2 * v.size_ else v.allocated_size_) ∧
      live v1 = x :: live v :=
  EmplaceFront_of_args fresh (fun y => y) v r.read x h (read_after_shift fresh v r x hs hx)

theorem PushBack_slot_full (v : MyVector T) (j : Nat) (h : Inv v)
    (hfull : v.size_ = v.allocated_size_) :
    PushBack fresh v (Ref.slot j) = Except.error Fault.outOfBounds :=
  EmplaceBack_of_fault fresh (fun y => y) v (Ref.slot j).read Fault.outOfBounds h
    (fun g _ => Ref.read_slot_full j v g.data_ hfull)

theorem PushFront_slot_full (v : MyVector T) (j : Nat) (h : Inv v)
    (hfull : v.size_ = v.allocated_size_) :
    PushFront fresh v (Ref.slot j) = Except.error Fault.outOfBounds :=
  EmplaceFront_of_fault fresh (fun y => y) v (Ref.slot j).read Fault.outOfBounds h
    (fun _ _ => Ref.read_slot_full j v _ hfull)


theorem Inv_mkDefault : Inv (mkDefault fresh) := by
  simp [Inv, mkDefault, newArray]

theorem mkSized_spec (n : Nat) (value : T) (hn : n < 9223372036854775808) :
    mkSized fresh n value = Except.ok
      { size_ := n, allocated_size_ := n * 2 + 1,
        data_ := List.replicate n value ++ (newArray fresh (n * 2 + 1)).drop n } := by
  have hm : (n * 2 + 1) % 18446744073709551616 = n * 2 + 1 := Nat.mod_eq_of_lt (by omega)
  have hf := fillLoop_zero value n (newArray fresh (n * 2 + 1)) (by rw [length_newArray]; omega)
  simp only [mkSized, hm, hf]

theorem Inv_mkSized (n : Nat) (value : T) (hn : n < 9223372036854775808) :
    ∃ v, mkSized fresh n value = Except.ok v ∧ Inv v := by
  refine ⟨_, mkSized_spec fresh n value hn, by simp only; omega, by simp only; omega, ?_⟩
  simp [length_newArray]
  omega

theorem fillLoop_of_ok (value : T) :
    ∀ (k i : Nat) (data r : List T), fillLoop value k i data = Except.ok r →
      r.length = data.length ∧ (k = 0 ∨ i + k ≤ data.length)
  | 0, i, data, r, h => by
    simp only [fillLoop] at h
    cases h
    exact ⟨rfl, Or.inl rfl⟩
  | k + 1, i, data, r, h => by
    by_cases hi : i < data.length
    · simp only [fillLoop, wr_of_lt value hi] at h
      obtain ⟨h1, h2⟩ := fillLoop_of_ok value k (i + 1) (data.set i value) r h
      rw [List.length_set] at h1 h2
      exact ⟨h1, Or.inr (by omega)⟩
    · simp [fillLoop, wr, hi] at h

theorem mkSized_of_ok (n : Nat) (value : T) (v : MyVector T)
    (h : mkSized fresh n value = Except.ok v) :
    Inv v ∧ v.size_ = n ∧ v.allocated_size_ = (n * 2 + 1) % 18446744073709551616 := by
  unfold mkSized at h
  simp only at h
  cases hf : fillLoop value n 0 (newArray fresh ((n * 2 + 1) % 18446744073709551616)) with
  | error e => rw [hf] at h; cases h
  | ok data =>
    rw [hf] at h
    cases h
    obtain ⟨h1, h2⟩ := fillLoop_of_ok value n 0 _ data hf
    rw [length_newArray] at h1 h2
    refine ⟨⟨?_, ?_, h1⟩, rfl, rfl⟩
    · show n ≤ (n * 2 + 1) % 18446744073709551616
      omega
    · show 1 ≤ (n * 2 + 1) % 18446744073709551616
      omega

theorem copyCtor_spec (o : MyVector T) (h : Inv o) :
    ∃ v1, copyCtor fresh o = Except.ok v1 ∧ Inv v1 ∧ v1.size_ = o.size_ ∧
      v1.allocated_size_ = o.allocated_size_ ∧ live v1 = live o := by
  obtain ⟨h1, h2, h3⟩ := h
  have hc := copyLoop_zero o.data_ o.size_ (newArray fresh o.allocated_size_) (by omega)
    (by rw [length_newArray]; exact h1)
  refine ⟨{ size_ := o.size_, allocated_size_ := o.allocated_size_,
            data_ := o.data_.take o.size_ ++ (newArray fresh o.allocated_size_).drop o.size_ },
    by simp only [copyCtor, hc], ⟨h1, h2, ?_⟩, rfl, rfl, ?_⟩
  · simp [length_newArray, Nat.min_eq_left (by omega : o.size_ ≤ o.data_.length)]
    omega
  · simp only [live]
    rw [List.take_left' (by simp [Nat.min_eq_left (by omega : o.size_ ≤ o.data_.length)])]

theorem copyAssign_spec (v o : MyVector T) (hv : Inv v) (h : Inv o) :
    ∃ v1, copyAssign fresh v o = Except.ok v1 ∧ Inv v1 ∧ v1.size_ = o.size_ ∧
      v1.allocated_size_ = o.allocated_size_ ∧ live v1 = live o := by
  obtain ⟨h1, h2, h3⟩ := h
  obtain ⟨_, _, hv3⟩ := hv
  by_cases hcap : v.allocated_size_ = o.allocated_size_
  · have hc := copyLoop_zero o.data_ o.size_ v.data_ (by omega) (by omega)
    refine ⟨{ size_ := o.size_, allocated_size_ := o.allocated_size_,
              data_ := o.data_.take o.size_ ++ v.data_.drop o.size_ },
      ?_, ⟨by simp only; omega, by simp only; omega, ?_⟩, rfl, rfl, ?_⟩
    · simp only [copyAssign, hcap, ne_eq, not_true_eq_false, if_false, hc]
    · simp [Nat.min_eq_left (by omega : o.size_ ≤ o.data_.length)]
      omega
    · simp only [live]
      rw [List.take_left' (by simp [Nat.min_eq_left (by omega : o.size_ ≤ o.data_.length)])]
  · have hc := copyLoop_zero o.data_ o.size_ (newArray fresh o.allocated_size_) (by omega)
      (by rw [length_newArray]; exact h1)
    refine ⟨{ size_ := o.size_, allocated_size_ := o.allocated_size_,
              data_ := o.data_.take o.size_ ++ (newArray fresh o.allocated_size_).drop o.size_ },
      by simp [copyAssign, hcap, hc], ⟨h1, h2, ?_⟩, rfl, rfl, ?_⟩
    · simp [length_newArray, Nat.min_eq_left (by omega : o.size_ ≤ o.data_.length)]
      omega
    · simp only [live]
      rw [List.take_left' (by simp [Nat.min_eq_left (by omega : o.size_ ≤ o.data_.length)])]

theorem copyAssignSelf_spec (v : MyVector T) (h : Inv v) :
    copyAssignSelf fresh v = Except.ok v := by
  obtain ⟨h1, _, h3⟩ := h
  have hc := selfCopyLoop_spec v.size_ 0 v.data_ (by omega)
  simp [copyAssignSelf, hc]

theorem indexAssign_spec (v : MyVector T) (i : Nat) (y : T) (h : Inv v) (hi : i < v.size_) :
    indexAssign v i y = Except.ok { v with data_ := v.data_.set i y } ∧
      Inv { v with data_ := v.data_.set i y } := by
  obtain ⟨h1, h2, h3⟩ := h
  have hlt : i < v.data_.length := by omega
  refine ⟨by simp [indexAssign, hi, wr_of_lt y hlt], h1, h2, ?_⟩
  simp only [List.length_set]
  exact h3

theorem Inv_moved :
    Inv ({ size_ := 0, allocated_size_ := 1, data_ := newArray fresh 1 } : MyVector T) := by
  simp [Inv, newArray]

theorem Reachable.inv {v : MyVector T} (h : Reachable v) : Inv v := by
  induction h with
  | default fresh => exact Inv_mkDefault fresh
  | sized fresh n value v hv => exact (mkSized_of_ok fresh n value v hv).1
  | pushBack fresh v x v1 _ hv ih =>
    obtain ⟨_, hinv, _⟩ := EmplaceBack_of_ok fresh (fun y => y) v x.read v1 ih hv
    exact hinv
  | popBack fresh v v1 _ hv ih =>
    by_cases hne : v.size_ = 0
    · simp [PopBack, hne] at hv
    · obtain ⟨w, hw, hinv, _⟩ := PopBack_spec fresh v ih hne
      rw [hv] at hw
      cases hw
      exact hinv
  | pushFront fresh v x v1 _ hv ih =>
    obtain ⟨_, hinv, _⟩ := EmplaceFront_of_ok fresh (fun y => y) v x.read v1 ih hv
    exact hinv
  | popFront fresh v v1 _ hv ih =>
    by_cases hne : v.size_ = 0
    · simp [PopFront, hne] at hv
    · obtain ⟨w, hw, hinv, _⟩ := PopFront_spec fresh v ih hne
      rw [hv] at hw
      cases hw
      exact hinv
  | emplaceBack fresh A ctor v args v1 _ hv ih =>
    obtain ⟨_, hinv, _⟩ := EmplaceBack_of_ok fresh ctor v args v1 ih hv
    exact hinv
  | emplaceFront fresh A ctor v args v1 _ hv ih =>
    obtain ⟨_, hinv, _⟩ := EmplaceFront_of_ok fresh ctor v args v1 ih hv
    exact hinv
  | indexAssign v i y v1 _ hv ih =>
    by_cases hi : i < v.size_
    · obtain ⟨hw, hinv⟩ := indexAssign_spec v i y ih hi
      rw [hv] at hw
      cases hw
      exact hinv
    · simp [MyVec.indexAssign, hi] at hv
  | copyCtor fresh o v1 _ hv ih =>
    obtain ⟨w, hw, hinv, _⟩ := copyCtor_spec fresh o ih
    rw [hv] at hw
    cases hw
    exact hinv
  | copyAssign fresh v o v1 _ _ hv ih1 ih2 =>
    obtain ⟨w, hw, hinv, _⟩ := copyAssign_spec fresh v o ih1 ih2
    rw [hv] at hw
    cases hw
    exact hinv
  | copyAssignSelf fresh v v1 _ hv ih =>
    rw [copyAssignSelf_spec fresh v ih] at hv
    cases hv
    exact ih
  | moveCtorDst fresh o _ ih => exact ih
  | moveCtorSrc fresh o _ _ => exact Inv_moved fresh
  | moveAssignDst fresh v o _ _ _ ih2 => exact ih2
  | moveAssignSrc fresh v o _ _ _ _ => exact Inv_moved fresh

theorem reachable_fullOne : Reachable fullOne :=
  Reachable.pushBack zeros (mkDefault zeros) (Ref.outside 42) fullOne (Reachable.default zeros)
    (by decide)

theorem reachable_fullPair : Reachable fullPair :=
  Reachable.pushBack zeros ({ size_ := 1, allocated_size_ := 1, data_ := [5] } : MyVector Int)
    (Ref.outside 6) fullPair
    (Reachable.pushBack zeros (mkDefault zeros) (Ref.outside 5) _ (Reachable.default zeros)
      (by decide))
    (by decide)

theorem reachable_threeFree : Reachable threeFree :=
  Reachable.pushBack zeros fullPair (Ref.outside 7) threeFree reachable_fullPair (by decide)

theorem length_live (v : MyVector T) (h : v.size_ ≤ v.data_.length) :
    (live v).length = v.size_ := by
  simp [live, Nat.min_eq_left h]

theorem indexConst_eq_live (v : MyVector T) (h : v.size_ ≤ v.data_.length) (i : Nat) :
    indexConst v i =
      match (live v)[i]? with
      | some a => Except.ok a
      | none => Except.error Fault.assertion := by
  by_cases hi : i < v.size_
  · have hlt : i < v.data_.length := by omega
    simp [indexConst, hi, rd, live, List.getElem?_take, List.getElem?_eq_getElem hlt]
  · simp [indexConst, hi, live, List.getElem?_take]

theorem indexMut_eq_indexConst (v : MyVector T) (i : Nat) : indexMut v i = indexConst v i := rfl

theorem indexConst_ok_iff (v : MyVector T) (i : Nat) (x : T) :
    indexConst v i = Except.ok x ↔ i < v.size_ ∧ v.data_[i]? = some x := by
  by_cases hi : i < v.size_
  · cases hd : v.data_[i]? with
    | none => simp [indexConst, hi, rd, hd]
    | some a => simp [indexConst, hi, rd, hd]
  · simp [indexConst, hi]

theorem front_facts (v w : MyVector T) (y : T) (hv : Inv v) (hw : Inv w)
    (hl : live w = y :: live v) :
    indexConst w 0 = Except.ok y ∧ ∀ i, indexConst w (i + 1) = indexConst v i := by
  have hwl : w.size_ ≤ w.data_.length := by
    obtain ⟨h1, _, h3⟩ := hw
    omega
  have hvl : v.size_ ≤ v.data_.length := by
    obtain ⟨h1, _, h3⟩ := hv
    omega
  refine ⟨?_, fun i => ?_⟩
  · rw [indexConst_eq_live w hwl, hl]
    simp
  · rw [indexConst_eq_live w hwl, indexConst_eq_live v hvl, hl, List.getElem?_cons_succ]

theorem findLoop_congr [DecidableEq T] (value : T) :
    ∀ (k i : Nat) (d1 d2 : List T), (∀ j, i ≤ j → j < i + k → d1[j]? = d2[j]?) →
      findLoop value k i d1 = findLoop value k i d2
  | 0, _, _, _, _ => rfl
  | k + 1, i, d1, d2, h => by
    have h0 : d1[i]? = d2[i]? := h i (le_refl i) (by omega)
    have ih := findLoop_congr value k (i + 1) d1 d2 (fun j h1 h2 => h j (by omega) (by omega))
    simp only [findLoop, rd, h0, ih]

theorem toInt_of_lt (i : Nat) (h : i < 2147483648) : toInt i = (i : Int) := by
  have h1 : i % 4294967296 = i := Nat.mod_eq_of_lt (by omega)
  simp [toInt, h1, h]

theorem PowCap_PushBack (v : MyVector T) (x : Ref T) (w : MyVector T)
    (h : Inv v) (hp : PowCap v) (hw : PushBack fresh v x = Except.ok w) : PowCap w := by
  obtain ⟨_, _, hs, ha, _⟩ := EmplaceBack_of_ok fresh (fun y => y) v x.read w h hw
  obtain ⟨k, hk, hhalf⟩ := hp
  obtain ⟨h1, _, _⟩ := h
  by_cases hfull : v.size_ = v.allocated_size_
  · refine ⟨k + 1, ?_, Or.inr ?_⟩
    · rw [ha, if_pos hfull, hfull, hk, Nat.pow_succ]
      omega
    · rw [hs, Nat.add_sub_cancel, ← hk, ← hfull]
      omega
  · refine ⟨k, by rw [ha, if_neg hfull, hk], ?_⟩
    rcases hhalf with h0 | h0
    · exact Or.inl h0
    · exact Or.inr (by rw [hs]; omega)

theorem pushBackAll_spec :
    ∀ (xs : List T) (fs : Nat → Nat → T) (v : MyVector T), Inv v → PowCap v →
      ∃ w, pushBackAll fs v (xs.map Ref.outside) = Except.ok w ∧ Inv w ∧ PowCap w ∧
        w.size_ = v.size_ + xs.length ∧ live w = live v ++ xs
  | [], _, v, h, hp => ⟨v, rfl, h, hp, by simp, by simp⟩
  | x :: xs, fs, v, h, hp => by
    obtain ⟨v1, hv1, hinv1, hs1, _, hl1⟩ :=
      PushBack_spec (fs 0) v (Ref.outside x) x h trivial (Ref.read_outside x _)
    have hp1 := PowCap_PushBack (fs 0) v (Ref.outside x) v1 h hp hv1
    obtain ⟨w, hw, hinv, hpw, hs, hl⟩ :=
      pushBackAll_spec xs (fun k => fs (k + 1)) v1 hinv1 hp1
    refine ⟨w, by simp only [List.map_cons, pushBackAll, hv1, hw], hinv, hpw, ?_, ?_⟩
    · rw [hs, hs1, List.length_cons]
      omega
    · rw [hl, hl1, List.append_assoc, List.singleton_append]

theorem PowCap_mkDefault : PowCap (mkDefault fresh) :=
  ⟨0, rfl, Or.inl rfl⟩

theorem push_facts (v : MyVector T) (x : Ref T) (v1 : MyVector T) (h : Inv v)
    (hp : PushBack fresh v x = Except.ok v1 ∨ PushFront fresh v x = Except.ok v1) :
    Inv v1 ∧ v1.size_ = v.size_ + 1 ∧
      v1.allocated_size_ =
        (if v.size_ = v.allocated_size_ then 2 * v.size_ else v.allocated_size_) := by
  rcases hp with hp | hp
  · obtain ⟨_, hinv, hs, ha, _⟩ := EmplaceBack_of_ok fresh (fun y => y) v x.read v1 h hp
    exact ⟨hinv, hs, ha⟩
  · obtain ⟨_, hinv, hs, ha, _⟩ := EmplaceFront_of_ok fresh (fun y => y) v x.read v1 h hp
    exact ⟨hinv, hs, ha⟩

theorem pop_facts (v v1 : MyVector T) (h : Inv v)
    (hp : PopBack fresh v = Except.ok v1 ∨ PopFront fresh v = Except.ok v1) :
    Inv v1 ∧ v.size_ ≠ 0 ∧ v1.size_ = v.size_ - 1 ∧
      v1.allocated_size_ =
        (if v.size_ - 1 < v.allocated_size_ / 4 then v.allocated_size_ / 2
         else v.allocated_size_) := by
  by_cases hne : v.size_ = 0
  · rcases hp with hp | hp
    · simp [PopBack, hne] at hp
    · simp [PopFront, hne] at hp
  · rcases hp with hp | hp
    · obtain ⟨w, hw, hinv, hs, ha, _⟩ := PopBack_spec fresh v h hne
      rw [hp] at hw
      cases hw
      exact ⟨hinv, hne, hs, ha⟩
    · obtain ⟨w, hw, hinv, hs, ha, _⟩ := PopFront_spec fresh v h hne
      rw [hp] at hw
      cases hw
      exact ⟨hinv, hne, hs, ha⟩

theorem not_oscillates_of_inv (v : MyVector T) (x : Ref T) (h : Inv v) :
    ¬ Oscillates v x := by
  rintro ⟨f1, f2, v1, v2, ⟨hpop, hlt1, hpush, hlt2⟩ | ⟨hpush, hlt1, hpop, hlt2⟩⟩
  · obtain ⟨hinv1, _, hs1, ha1⟩ := pop_facts f1 v v1 h hpop
    obtain ⟨_, _, ha2⟩ := push_facts f2 v1 x v2 hinv1 hpush
    split_ifs at ha1 ha2 <;> omega
  · obtain ⟨hinv1, hs1, ha1⟩ := push_facts f1 v x v1 h hpush
    obtain ⟨_, _, _, ha2⟩ := pop_facts f2 v1 v2 hinv1 hpop
    split_ifs at ha1 ha2 <;> omega

theorem Reachable.occupancy {v : MyVector T} (h : Reachable v) :
    v.allocated_size_ ≤ 4 * v.size_ + 3 := by
  induction h with
  | default fresh => simp [mkDefault]
  | sized fresh n value v hv =>
    obtain ⟨_, hs, ha⟩ := mkSized_of_ok fresh n value v hv
    rw [ha, hs]
    omega
  | pushBack fresh v x v1 hr hv ih =>
    obtain ⟨_, hs, ha⟩ := push_facts fresh v x v1 hr.inv (Or.inl hv)
    split_ifs at ha <;> omega
  | popBack fresh v v1 hr hv ih =>
    obtain ⟨_, _, hs, ha⟩ := pop_facts fresh v v1 hr.inv (Or.inl hv)
    split_ifs at ha <;> omega
  | pushFront fresh v x v1 hr hv ih =>
    obtain ⟨_, hs, ha⟩ := push_facts fresh v x v1 hr.inv (Or.inr hv)
    split_ifs at ha <;> omega
  | popFront fresh v v1 hr hv ih =>
    obtain ⟨_, _, hs, ha⟩ := pop_facts fresh v v1 hr.inv (Or.inr hv)
    split_ifs at ha <;> omega
  | emplaceBack fresh A ctor v args v1 hr hv ih =>
    obtain ⟨_, _, hs, ha, _⟩ := EmplaceBack_of_ok fresh ctor v args v1 hr.inv hv
    split_ifs at ha <;> omega
  | emplaceFront fresh A ctor v args v1 hr hv ih =>
    obtain ⟨_, _, hs, ha, _⟩ := EmplaceFront_of_ok fresh ctor v args v1 hr.inv hv
    split_ifs at ha <;> omega
  | indexAssign v i y v1 hr hv ih =>
    by_cases hi : i < v.size_
    · obtain ⟨hw, _⟩ := indexAssign_spec v i y hr.inv hi
      rw [hv] at hw
      cases hw
      exact ih
    · simp [MyVec.indexAssign, hi] at hv
  | copyCtor fresh o v1 hr hv ih =>
    obtain ⟨w, hw, _, hs, ha, _⟩ := copyCtor_spec fresh o hr.inv
    rw [hv] at hw
    cases hw
    omega
  | copyAssign fresh v o v1 hr1 hr2 hv ih1 ih2 =>
    obtain ⟨w, hw, _, hs, ha, _⟩ := copyAssign_spec fresh v o hr1.inv hr2.inv
    rw [hv] at hw
    cases hw
    omega
  | copyAssignSelf fresh v v1 hr hv ih =>
    rw [copyAssignSelf_spec fresh v hr.inv] at hv
    cases hv
    exact ih
  | moveCtorDst fresh o _ ih => exact ih
  | moveCtorSrc fresh o _ _ => simp [moveCtor]
  | moveAssignDst fresh v o _ _ _ ih2 => exact ih2
  | moveAssignSrc fresh v o _ _ _ _ => simp [moveAssign]

/-! ## Objects and buffers in memory -/

theorem Mem.setObj_obj (m : Mem T) (t : Nat) (o : VecObj) (k : Nat) :
    (m.setObj t o).obj k = if k = t then o else m.obj k := rfl

theorem Mem.setObj_heap (m : Mem T) (t : Nat) (o : VecObj) : (m.setObj t o).heap = m.heap := rfl

theorem Mem.setBuf_heap (m : Mem T) (a : Nat) (b : Option (List T)) (k : Nat) :
    (m.setBuf a b).heap k = if k = a then b else m.heap k := rfl

theorem Mem.setBuf_obj (m : Mem T) (a : Nat) (b : Option (List T)) :
    (m.setBuf a b).obj = m.obj := rfl

theorem Mem.setObj_obj_same (m : Mem T) (t : Nat) (o : VecObj) : (m.setObj t o).obj t = o := by
  rw [Mem.setObj_obj, if_pos rfl]

theorem Mem.setObj_obj_ne (m : Mem T) (t : Nat) (o : VecObj) (k : Nat) (h : k ≠ t) :
    (m.setObj t o).obj k = m.obj k := by
  rw [Mem.setObj_obj, if_neg h]

theorem Mem.setBuf_heap_ne (m : Mem T) (a : Nat) (b : Option (List T)) (k : Nat) (h : k ≠ a) :
    (m.setBuf a b).heap k = m.heap k := by
  rw [Mem.setBuf_heap, if_neg h]

theorem Mem.view_eq_some (m : Mem T) (t : Nat) (s : MyVector T) :
    m.view t = some s ↔
      m.heap (m.obj t).data_ = some s.data_ ∧ (m.obj t).size_ = s.size_ ∧
        (m.obj t).allocated_size_ = s.allocated_size_ := by
  unfold Mem.view
  cases hb : m.heap (m.obj t).data_ with
  | none => simp
  | some b =>
    cases s with
    | mk sz al d =>
      simp only [Option.some.injEq, MyVector.mk.injEq]
      constructor
      · rintro ⟨h1, h2, h3⟩
        exact ⟨h3, h1, h2⟩
      · rintro ⟨h1, h2, h3⟩
        exact ⟨h2, h3, h1⟩

theorem Mem.copyLoop_sep (t o : Nat) (src : List T) :
    ∀ (k i : Nat) (m : Mem T) (dst r : List T),
      (m.obj t).data_ ≠ (m.obj o).data_ →
      m.heap (m.obj o).data_ = some src → m.heap (m.obj t).data_ = some dst →
      MyVec.copyLoop src k i dst = Except.ok r →
      ∃ m1, Mem.copyLoop t o k i m = Except.ok m1 ∧ m1.obj = m.obj ∧
        m1.heap (m.obj t).data_ = some r ∧ ∀ b, b ≠ (m.obj t).data_ → m1.heap b = m.heap b
  | 0, i, m, dst, r, _, _, hd, h => by
    simp only [MyVec.copyLoop, Except.ok.injEq] at h
    subst h
    exact ⟨m, rfl, rfl, hd, fun _ _ => rfl⟩
  | k + 1, i, m, dst, r, hne, hs, hd, h => by
    simp only [MyVec.copyLoop] at h
    cases hrd : rd src i with
    | error e => rw [hrd] at h; cases h
    | ok x =>
      rw [hrd] at h
      simp only at h
      cases hwr : wr dst i x with
      | error e => rw [hwr] at h; cases h
      | ok dst1 =>
        rw [hwr] at h
        simp only at h
        have hload : m.load (m.obj o).data_ i = Except.ok x := by
          simp only [Mem.load, hs, hrd]
        have hstore : m.store (m.obj t).data_ i x =
            Except.ok (m.setBuf (m.obj t).data_ (some dst1)) := by
          simp only [Mem.store, hd, hwr]
        obtain ⟨m1, hm1, hobj, hheap, hframe⟩ :=
          Mem.copyLoop_sep t o src k (i + 1) (m.setBuf (m.obj t).data_ (some dst1)) dst1 r
            (by rw [Mem.setBuf_obj]; exact hne)
            (by rw [Mem.setBuf_obj, Mem.setBuf_heap, if_neg (Ne.symm hne)]; exact hs)
            (by rw [Mem.setBuf_obj, Mem.setBuf_heap, if_pos rfl])
            h
        rw [Mem.setBuf_obj] at hobj hheap hframe
        refine ⟨m1, by simp only [Mem.copyLoop, hload, hstore, hm1], hobj, hheap, fun b hb => ?_⟩
        rw [hframe b hb, Mem.setBuf_heap, if_neg hb]

theorem Mem.copyCtor_mem (m : Mem T) (t o a : Nat) (s : MyVector T)
    (hto : t ≠ o) (ha : m.heap a = none) (hv : m.view o = some s) (hinv : Inv s) :
    ∃ m1, Mem.copyCtor fresh m t o a = Except.ok m1 ∧
      m1.obj t = { size_ := s.size_, allocated_size_ := s.allocated_size_, data_ := a } ∧
      (∀ k, k ≠ t → m1.obj k = m.obj k) ∧
      m1.heap a = some (s.data_.take s.size_ ++ (newArray fresh s.allocated_size_).drop s.size_) ∧
      (∀ b, b ≠ a → m1.heap b = m.heap b) ∧ a ≠ (m.obj o).data_ := by
  obtain ⟨hh, hsz, hal⟩ := (Mem.view_eq_some m o s).mp hv
  obtain ⟨h1, h2, h3⟩ := hinv
  have hao : a ≠ (m.obj o).data_ := by
    intro hc
    rw [hc, hh] at ha
    cases ha
  have hc := copyLoop_zero s.data_ s.size_ (newArray fresh s.allocated_size_) (by omega)
    (by rw [length_newArray]; exact h1)
  have hot : o ≠ t := fun h => hto h.symm
  obtain ⟨m1, hm1, hobj, hheap, hframe⟩ :=
    Mem.copyLoop_sep t o s.data_ s.size_ 0
      ((m.newAt fresh a s.allocated_size_).setObj t
        { size_ := s.size_, allocated_size_ := s.allocated_size_, data_ := a })
      (newArray fresh s.allocated_size_) _
      (by simp [Mem.setObj_obj, Mem.newAt, Mem.setBuf_obj, hot, hao])
      (by simp [Mem.setObj_obj, Mem.setObj_heap, Mem.newAt, Mem.setBuf_obj, Mem.setBuf_heap,
            hot, Ne.symm hao, hh])
      (by simp [Mem.setObj_obj, Mem.setObj_heap, Mem.newAt, Mem.setBuf_heap])
      hc
  rw [Mem.setObj_obj_same] at hheap hframe
  refine ⟨m1, ?_, ?_, fun k hk => ?_, hheap, fun b hb => ?_, hao⟩
  · simp only [Mem.copyCtor, hsz, hal, Mem.setObj_obj_same, hm1]
  · rw [hobj, Mem.setObj_obj_same]
  · rw [hobj, Mem.setObj_obj_ne _ _ _ _ hk]
    rfl
  · rw [hframe b hb, Mem.setObj_heap, Mem.newAt, Mem.setBuf_heap_ne _ _ _ _ hb]


theorem Mem.view_congr (m m1 : Mem T) (k : Nat) (hobj : m1.obj k = m.obj k)
    (hheap : m1.heap (m.obj k).data_ = m.heap (m.obj k).data_) : m1.view k = m.view k := by
  simp only [Mem.view, hobj, hheap]

theorem Mem.view_of_parts (m : Mem T) (t : Nat) (o : VecObj) (b : List T)
    (hobj : m.obj t = o) (hheap : m.heap o.data_ = some b) :
    m.view t = some { size_ := o.size_, allocated_size_ := o.allocated_size_, data_ := b } := by
  rw [Mem.view_eq_some, hobj]
  exact ⟨hheap, rfl, rfl⟩

theorem indexConst_congr_live (c s : MyVector T) (hc : c.size_ ≤ c.data_.length)
    (hs : s.size_ ≤ s.data_.length) (hl : live c = live s) (i : Nat) :
    indexConst c i = indexConst s i := by
  rw [indexConst_eq_live c hc, indexConst_eq_live s hs, hl]

end Lemmas

/-! ## The claims -/

/-- C1, as the code has it: the representation invariant (`size_ ≤ allocated_size_`,
`1 ≤ allocated_size_`, and the buffer has exactly `allocated_size_` slots) holds after the
default constructor, and after the sized constructor for every `n` below 2^63, whatever `new`
delivers in the slots.  Every public operation whose precondition is met returns without a
fault in a state that satisfies it again: `PushBack` and `PushFront` of an argument that is still
there when it is read (an object outside of the buffer, or an element `v[j]` of a vector that is
not full), `EmplaceBack` and `EmplaceFront` of arguments outside of the buffer, the two removals
on a non-empty vector, a store through `operator[]` at an index below the size, copy
construction, copy assignment (also of a vector to itself), and move construction and move
assignment, for the destination and for the moved-from source.  Whenever the sized constructor
or one of the four insertions returns at all, for any `k` and any argument, the state it returns
satisfies the invariant.  `IsEmpty()` is true exactly when `Size()` is 0. -/
theorem invariant_preserved {A : Type} (fresh : Nat → T) (ctor : A → T) (args : A)
    (v o p : MyVector T) (r : Ref T) (x : T) (n i : Nat)
    (hv : Inv v) (ho : Inv o) (hp : Inv p) (hne : Size p ≠ 0) (hi : i < Size p)
    (hn : n < 9223372036854775808) (hr : r.Survives v) :
    Inv (mkDefault fresh) ∧
    (∃ s, mkSized fresh n x = Except.ok s ∧ Inv s) ∧
    (∃ v1, PushBack fresh v r = Except.ok v1 ∧ Inv v1) ∧
    (∃ v1, PushFront fresh v r = Except.ok v1 ∧ Inv v1) ∧
    (∃ v1, EmplaceBack fresh ctor v (ArgPack.values args) = Except.ok v1 ∧ Inv v1) ∧
    (∃ v1, EmplaceFront fresh ctor v (ArgPack.values args) = Except.ok v1 ∧ Inv v1) ∧
    (∀ (k : Nat) (s : MyVector T), mkSized fresh k x = Except.ok s → Inv s) ∧
    (∀ (q : Ref T) (v1 : MyVector T),
      PushBack fresh v q = Except.ok v1 ∨ PushFront fresh v q = Except.ok v1 → Inv v1) ∧
    (∀ (pk : ArgPack T A) (v1 : MyVector T),
      EmplaceBack fresh ctor v pk = Except.ok v1 ∨ EmplaceFront fresh ctor v pk = Except.ok v1 →
        Inv v1) ∧
    (∃ p1, PopBack fresh p = Except.ok p1 ∧ Inv p1) ∧
    (∃ p1, PopFront fresh p = Except.ok p1 ∧ Inv p1) ∧
    (∃ p1, indexAssign p i x = Except.ok p1 ∧ Inv p1) ∧
    (∃ c, copyCtor fresh o = Except.ok c ∧ Inv c) ∧
    (∃ v1, copyAssign fresh v o = Except.ok v1 ∧ Inv v1) ∧
    (∃ v1, copyAssignSelf fresh v = Except.ok v1 ∧ Inv v1) ∧
    (Inv (moveCtor fresh o).1 ∧ Inv (moveCtor fresh o).2) ∧
    (Inv (moveAssign fresh v o).1 ∧ Inv (moveAssign fresh v o).2) ∧
    (IsEmpty v = true ↔ Size v = 0) := by
  obtain ⟨xb, hxb⟩ := Ref.read_of_survives r v hv hr
  obtain ⟨xf, hxf⟩ := Ref.read_shifted_of_survives r v hv hr
  refine ⟨Inv_mkDefault fresh, Inv_mkSized fresh n x hn, ?_, ?_, ?_, ?_, ?_, ?_, ?_, ?_, ?_, ?_,
    ?_, ?_, ?_, ?_, ?_, ?_⟩
  · obtain ⟨w, hw, hinv, _⟩ := PushBack_spec fresh v r xb hv hr hxb
    exact ⟨w, hw, hinv⟩
  · obtain ⟨w, hw, hinv, _⟩ := PushFront_spec fresh v r xf hv hr hxf
    exact ⟨w, hw, hinv⟩
  · obtain ⟨w, hw, hinv, _⟩ :=
      EmplaceBack_of_args fresh ctor v (ArgPack.values args) args hv (fun _ _ => rfl)
    exact ⟨w, hw, hinv⟩
  · obtain ⟨w, hw, hinv, _⟩ :=
      EmplaceFront_of_args fresh ctor v (ArgPack.values args) args hv (fun _ _ => rfl)
    exact ⟨w, hw, hinv⟩
  · exact fun k s hs => (mkSized_of_ok fresh k x s hs).1
  · exact fun q v1 hq => (push_facts fresh v q v1 hv hq).1
  · intro pk v1 hq
    rcases hq with hq | hq
    · obtain ⟨_, hinv, _⟩ := EmplaceBack_of_ok fresh ctor v pk v1 hv hq
      exact hinv
    · obtain ⟨_, hinv, _⟩ := EmplaceFront_of_ok fresh ctor v pk v1 hv hq
      exact hinv
  · obtain ⟨w, hw, hinv, _⟩ := PopBack_spec fresh p hp hne
    exact ⟨w, hw, hinv⟩
  · obtain ⟨w, hw, hinv, _⟩ := PopFront_spec fresh p hp hne
    exact ⟨w, hw, hinv⟩
  · exact ⟨_, (indexAssign_spec p i x hp hi).1, (indexAssign_spec p i x hp hi).2⟩
  · obtain ⟨w, hw, hinv, _⟩ := copyCtor_spec fresh o ho
    exact ⟨w, hw, hinv⟩
  · obtain ⟨w, hw, hinv, _⟩ := copyAssign_spec fresh v o hv ho
    exact ⟨w, hw, hinv⟩
  · exact ⟨v, copyAssignSelf_spec fresh v hv, hv⟩
  · exact ⟨ho, Inv_moved fresh⟩
  · exact ⟨ho, Inv_moved fresh⟩
  · simp [IsEmpty, Size]

/-- Witness of C1: a full vector with an argument outside of its buffer, so that the growth
step runs, a sparse one and a non-empty one with the index 2, and `new int[n]` delivering
different values in the slots. -/
theorem invariant_preserved_witness :
    Inv fullPair ∧ Inv sparseOne ∧ Inv threeOfEight ∧ Size threeOfEight ≠ 0 ∧
    2 < Size threeOfEight ∧ 4 < 9223372036854775808 ∧ (Ref.outside 7).Survives fullPair ∧
    (∃ s, mkSized junk 4 7 = Except.ok s ∧ Inv s) ∧
    (∃ v1, PushBack junk fullPair (Ref.outside 7) = Except.ok v1 ∧ Inv v1) ∧
    (∃ v1, PushFront junk fullPair (Ref.outside 7) = Except.ok v1 ∧ Inv v1) ∧
    (∃ p1, PopFront junk threeOfEight = Except.ok p1 ∧ Inv p1) ∧
    PushBack junk fullPair (Ref.outside 7) =
      Except.ok { size_ := 3, allocated_size_ := 4, data_ := [5, 6, 7, 103] } :=
  have h := invariant_preserved junk (fun a : Int => a) 9 fullPair sparseOne threeOfEight
    (Ref.outside 7) 7 4 2
    (by decide) (by decide) (by decide) (by decide) (by decide) (by decide) (by decide)
  ⟨by decide, by decide, by decide, by decide, by decide, by decide, by decide, h.2.1, h.2.2.1,
    h.2.2.2.1, h.2.2.2.2.2.2.2.2.2.2.1, by decide⟩

/-- C1 as stated fails, in two ways.  `MyVector<int>(9223372036854775808, 7)` computes the
capacity `size * 2 + 1` as 1 in `size_t` and its fill loop leaves the one slot buffer, so the
constructor does not return a vector for every `n`.  On the full vector 5, 6, which satisfies
the invariant and meets the precondition of every insertion, `v.EmplaceFront(v[1])` releases
the buffer in the growth step and reads its argument from it afterwards. -/
theorem invariant_counterexample :
    (9223372036854775808 * 2 + 1) % 18446744073709551616 = 1 ∧
    mkSized zeros 9223372036854775808 7 = Except.error Fault.outOfBounds ∧
    Inv fullPair ∧ indexConst fullPair 1 = Except.ok 6 ∧
    EmplaceFront zeros (fun a : Int => a) fullPair (ArgPack.element 1) =
      Except.error Fault.outOfBounds := by
  refine ⟨by decide, by decide, by decide, by decide, by decide⟩

/-- C2, as the code has it: `PushBack` takes its argument by reference and reads it after the
growth step.  On a vector that satisfies the invariant, `PushBack(x)` of an object `x` outside
of the buffer returns without a fault; the live elements are the old ones in the same order
followed by `x`, the size grows by one, and the capacity is twice the old size when the old
size equalled the old capacity and is unchanged otherwise.  `PushBack(v[j])` of an element of
the vector itself does the same, with the capacity unchanged, when the vector is not full; when
the vector is full the growth step releases the buffer and the argument is read from the
released buffer. -/
theorem PushBack_appends (fresh : Nat → T) (v : MyVector T) (h : Inv v) :
    (∀ x, ∃ v1, PushBack fresh v (Ref.outside x) = Except.ok v1 ∧ live v1 = live v ++ [x] ∧
      Size v1 = Size v + 1 ∧
      v1.allocated_size_ =
        (if Size v = v.allocated_size_ then 2 * Size v else v.allocated_size_)) ∧
    (∀ j x, indexConst v j = Except.ok x → Size v ≠ v.allocated_size_ →
      ∃ v1, PushBack fresh v (Ref.slot j) = Except.ok v1 ∧ live v1 = live v ++ [x] ∧
        Size v1 = Size v + 1 ∧ v1.allocated_size_ = v.allocated_size_) ∧
    (∀ j, Size v = v.allocated_size_ →
      PushBack fresh v (Ref.slot j) = Except.error Fault.outOfBounds) := by
  refine ⟨fun x => ?_, fun j x hj hnf => ?_, fun j hfull => PushBack_slot_full fresh v j h hfull⟩
  · obtain ⟨w, hw, _, hs, ha, hl⟩ :=
      PushBack_spec fresh v (Ref.outside x) x h trivial (Ref.read_outside x _)
    exact ⟨w, hw, hl, hs, ha⟩
  · rw [indexConst_ok_iff] at hj
    have hrd : (Ref.slot j).read (some v.data_) = Except.ok x := by
      show rd v.data_ j = Except.ok x
      simp [rd, hj.2]
    obtain ⟨w, hw, _, hs, ha, hl⟩ := PushBack_spec fresh v (Ref.slot j) x h ⟨hj.1, hnf⟩ hrd
    simp only [Size] at hnf
    rw [if_neg hnf] at ha
    exact ⟨w, hw, hl, hs, ha⟩

/-- Witness of C2: a push of an outside object on a full vector of two elements, and
`v.PushBack(v[1])` on the vector 5, 6, 7 in four slots. -/
theorem PushBack_appends_witness :
    Inv fullPair ∧ Inv threeFree ∧
    (∃ v1, PushBack junk fullPair (Ref.outside 7) = Except.ok v1 ∧
      live v1 = live fullPair ++ [7] ∧ Size v1 = Size fullPair + 1 ∧
      v1.allocated_size_ =
        (if Size fullPair = fullPair.allocated_size_ then 2 * Size fullPair
         else fullPair.allocated_size_)) ∧
    indexConst threeFree 1 = Except.ok 6 ∧ Size threeFree ≠ threeFree.allocated_size_ ∧
    (∃ v1, PushBack junk threeFree (Ref.slot 1) = Except.ok v1 ∧
      live v1 = live threeFree ++ [6] ∧ Size v1 = Size threeFree + 1 ∧
      v1.allocated_size_ = threeFree.allocated_size_) :=
  ⟨by decide, by decide, (PushBack_appends junk fullPair (by decide)).1 7, by decide, by decide,
    (PushBack_appends junk threeFree (by decide)).2.1 1 6 (by decide) (by decide)⟩

/-- C2 as stated fails: on the full vector 5, 6, which satisfies the invariant, the call
`v.PushBack(v[0])` with the value 5 does not yield the elements 5, 6, 5; the growth step
releases the buffer that the argument refers to, and the argument is read afterwards. -/
theorem PushBack_appends_counterexample :
    Inv fullPair ∧ indexConst fullPair 0 = Except.ok 5 ∧
    PushBack zeros fullPair (Ref.slot 0) = Except.error Fault.outOfBounds ∧
    ¬ ∃ v1, PushBack zeros fullPair (Ref.slot 0) = Except.ok v1 ∧
        live v1 = live fullPair ++ [5] := by
  refine ⟨by decide, by decide, by decide, ?_⟩
  rintro ⟨v1, hv1, _⟩
  revert hv1
  rw [show PushBack zeros fullPair (Ref.slot 0) = Except.error Fault.outOfBounds by decide]
  intro hv1
  cases hv1

/-- C3: on a non-empty vector that satisfies the invariant, `PopBack()` returns without a fault;
the size drops by one, the live elements are the old ones without the last, and the capacity is
the old capacity / 2 when the new size is below the old capacity / 4 (integer divisions) and is
unchanged otherwise. -/
theorem PopBack_removes_last (fresh : Nat → T) (v : MyVector T) (h : Inv v) (hne : Size v ≠ 0) :
    ∃ v1, PopBack fresh v = Except.ok v1 ∧ Size v1 = Size v - 1 ∧
      live v1 = (live v).dropLast ∧
      v1.allocated_size_ =
        (if Size v - 1 < v.allocated_size_ / 4 then v.allocated_size_ / 2
         else v.allocated_size_) := by
  obtain ⟨w, hw, _, hs, ha, hl⟩ := PopBack_spec fresh v h hne
  exact ⟨w, hw, hs, hl, ha⟩

/-- Witness of C3: a pop that halves the capacity. -/
theorem PopBack_removes_last_witness :
    Inv sparseOne ∧ Size sparseOne ≠ 0 ∧
    ∃ v1, PopBack zeros sparseOne = Except.ok v1 ∧ Size v1 = Size sparseOne - 1 ∧
      live v1 = (live sparseOne).dropLast ∧
      v1.allocated_size_ =
        (if Size sparseOne - 1 < sparseOne.allocated_size_ / 4 then sparseOne.allocated_size_ / 2
         else sparseOne.allocated_size_) :=
  ⟨by decide, by decide, PopBack_removes_last zeros sparseOne (by decide) (by decide)⟩

/-- C4, as the code has it: `PushFront` takes its argument by reference and reads it after the
growth step and the shift.  On a vector that satisfies the invariant, `PushFront(x)` of an
object `x` outside of the buffer returns without a fault; the size grows by one, index 0 holds
`x`, the element at index `i + 1` is the old element at index `i` for every `i` below the old
size, and the capacity is twice the old size when the old size equalled the old capacity and is
unchanged otherwise.  `PushFront(v[j])` of an element of the vector itself, on a vector that is
not full, shifts the old elements in the same way and keeps the capacity, but index 0 receives
what slot `j` holds after the shift: the old element at index `j - 1`, or the old element 0
when `j` is 0.  When the vector is full the argument is read from the buffer that the growth
step has released. -/
theorem PushFront_prepends (fresh : Nat → T) (v : MyVector T) (h : Inv v) :
    (∀ x, ∃ v1, PushFront fresh v (Ref.outside x) = Except.ok v1 ∧ Size v1 = Size v + 1 ∧
      indexConst v1 0 = Except.ok x ∧
      (∀ i, i < Size v → indexConst v1 (i + 1) = indexConst v i) ∧
      live v1 = x :: live v ∧
      v1.allocated_size_ =
        (if Size v = v.allocated_size_ then 2 * Size v else v.allocated_size_)) ∧
    (∀ j y, j < Size v → indexConst v (j - 1) = Except.ok y → Size v ≠ v.allocated_size_ →
      ∃ v1, PushFront fresh v (Ref.slot j) = Except.ok v1 ∧ Size v1 = Size v + 1 ∧
        indexConst v1 0 = Except.ok y ∧
        (∀ i, i < Size v → indexConst v1 (i + 1) = indexConst v i) ∧
        live v1 = y :: live v ∧ v1.allocated_size_ = v.allocated_size_) ∧
    (∀ j, Size v = v.allocated_size_ →
      PushFront fresh v (Ref.slot j) = Except.error Fault.outOfBounds) := by
  refine ⟨fun x => ?_, fun j y hj hy hnf => ?_, fun j hfull => PushFront_slot_full fresh v j h hfull⟩
  · obtain ⟨w, hw, hinv, hs, ha, hl⟩ :=
      PushFront_spec fresh v (Ref.outside x) x h trivial (Ref.read_outside x _)
    obtain ⟨h0, hup⟩ := front_facts v w x h hinv hl
    exact ⟨w, hw, hs, h0, fun i _ => hup i, hl, ha⟩
  · rw [indexConst_ok_iff] at hy
    simp only [Size] at hj hnf
    obtain ⟨h1, _, h3⟩ := h
    have hget : (shifted v.data_ v.size_)[j]? = some y := by
      rw [getElem?_shifted v.data_ v.size_ j (by omega)]
      by_cases hj0 : j = 0
      · subst hj0
        rw [if_pos rfl]
        exact hy.2
      · rw [if_neg hj0, if_pos (by omega)]
        exact hy.2
    have hrd : (Ref.slot j).read (some (shifted v.data_ v.size_)) = Except.ok y := by
      show rd (shifted v.data_ v.size_) j = Except.ok y
      simp [rd, hget]
    obtain ⟨w, hw, hinv, hs, ha, hl⟩ :=
      PushFront_spec fresh v (Ref.slot j) y ⟨h1, ‹_›, h3⟩ ⟨hj, hnf⟩ hrd
    obtain ⟨h0, hup⟩ := front_facts v w y ⟨h1, ‹_›, h3⟩ hinv hl
    rw [if_neg hnf] at ha
    exact ⟨w, hw, hs, h0, fun i _ => hup i, hl, ha⟩

/-- Witness of C4: a push of an outside object at the front of a full vector of two elements,
and `v.PushFront(v[1])` on the vector 5, 6, 7 in four slots, which puts 5 and not 6 at the
front. -/
theorem PushFront_prepends_witness :
    Inv fullPair ∧ Inv threeFree ∧
    (∃ v1, PushFront junk fullPair (Ref.outside 7) = Except.ok v1 ∧
      Size v1 = Size fullPair + 1 ∧ indexConst v1 0 = Except.ok 7 ∧
      (∀ i, i < Size fullPair → indexConst v1 (i + 1) = indexConst fullPair i) ∧
      live v1 = 7 :: live fullPair ∧
      v1.allocated_size_ =
        (if Size fullPair = fullPair.allocated_size_ then 2 * Size fullPair
         else fullPair.allocated_size_)) ∧
    1 < Size threeFree ∧ indexConst threeFree (1 - 1) = Except.ok 5 ∧
    Size threeFree ≠ threeFree.allocated_size_ ∧
    (∃ v1, PushFront junk threeFree (Ref.slot 1) = Except.ok v1 ∧
      Size v1 = Size threeFree + 1 ∧ indexConst v1 0 = Except.ok 5 ∧
      (∀ i, i < Size threeFree → indexConst v1 (i + 1) = indexConst threeFree i) ∧
      live v1 = 5 :: live threeFree ∧ v1.allocated_size_ = threeFree.allocated_size_) :=
  ⟨by decide, by decide, (PushFront_prepends junk fullPair (by decide)).1 7, by decide, by decide,
    by decide,
    (PushFront_prepends junk threeFree (by decide)).2.1 1 5 (by decide) (by decide) (by decide)⟩

/-- C4 as stated fails: on the vector 5, 6, 7 in four slots, which satisfies the invariant, the
call `v.PushFront(v[1])` with the value 6 returns the vector 5, 5, 6, 7; index 0 holds 5 and
not 6, because the shift has overwritten slot 1 before the argument is read. -/
theorem PushFront_prepends_counterexample :
    Inv threeFree ∧ indexConst threeFree 1 = Except.ok 6 ∧
    PushFront zeros threeFree (Ref.slot 1) =
      Except.ok { size_ := 4, allocated_size_ := 4, data_ := [5, 5, 6, 7] } ∧
    ¬ ∃ v1, PushFront zeros threeFree (Ref.slot 1) = Except.ok v1 ∧
        indexConst v1 0 = Except.ok 6 := by
  have h : PushFront zeros threeFree (Ref.slot 1) =
      Except.ok { size_ := 4, allocated_size_ := 4, data_ := [5, 5, 6, 7] } := by decide
  refine ⟨by decide, by decide, h, ?_⟩
  rintro ⟨v1, hv1, h0⟩
  rw [h] at hv1
  cases hv1
  revert h0
  decide

/-- C5: on a non-empty vector that satisfies the invariant, `PopFront()` returns without a
fault; the size drops by one, the element at every index `i` below the new size is the old
element at index `i + 1` (the live elements are the old ones without the first), and the
capacity follows the rule of `PopBack`: the old capacity / 2 when the new size is below the old
capacity / 4 (integer divisions), unchanged otherwise. -/
theorem PopFront_removes_first (fresh : Nat → T) (v : MyVector T) (h : Inv v)
    (hne : Size v ≠ 0) :
    ∃ v1, PopFront fresh v = Except.ok v1 ∧ Size v1 = Size v - 1 ∧
      (∀ i, i < Size v - 1 → indexConst v1 i = indexConst v (i + 1)) ∧
      live v1 = (live v).tail ∧
      v1.allocated_size_ =
        (if Size v - 1 < v.allocated_size_ / 4 then v.allocated_size_ / 2
         else v.allocated_size_) := by
  obtain ⟨w, hw, hinv, hs, ha, hl⟩ := PopFront_spec fresh v h hne
  have hwl : w.size_ ≤ w.data_.length := by
    obtain ⟨h1, _, h3⟩ := hinv
    omega
  have hvl : v.size_ ≤ v.data_.length := by
    obtain ⟨h1, _, h3⟩ := h
    omega
  refine ⟨w, hw, hs, fun i _ => ?_, hl, ha⟩
  rw [indexConst_eq_live w hwl, indexConst_eq_live v hvl, hl]
  cases live v with
  | nil => simp
  | cons a t => simp

/-- Witness of C5: a pop at the front that halves the capacity. -/
theorem PopFront_removes_first_witness :
    Inv sparseOne ∧ Size sparseOne ≠ 0 ∧
    ∃ v1, PopFront zeros sparseOne = Except.ok v1 ∧ Size v1 = Size sparseOne - 1 ∧
      (∀ i, i < Size sparseOne - 1 → indexConst v1 i = indexConst sparseOne (i + 1)) ∧
      live v1 = (live sparseOne).tail ∧
      v1.allocated_size_ =
        (if Size sparseOne - 1 < sparseOne.allocated_size_ / 4 then sparseOne.allocated_size_ / 2
         else sparseOne.allocated_size_) :=
  ⟨by decide, by decide, PopFront_removes_first zeros sparseOne (by decide) (by decide)⟩

/-- C6: for a vector that satisfies the invariant and has fewer than 2^31 elements, `Find(x)`
returns the smallest index below the size whose element equals `x` when there is one (no
smaller index holds `x`, also under duplicates), and -1 when no live element equals `x`; the
slots at the indices from the size on play no part: a vector with the same size and the same
live elements gives the same result. -/
theorem Find_first_match [DecidableEq T] (v : MyVector T) (x : T)
    (h : Inv v) (hsz : Size v < 2147483648) :
    ((∃ i, indexConst v i = Except.ok x) →
      ∃ i : Nat, Find v x = Except.ok (i : Int) ∧ i < Size v ∧ indexConst v i = Except.ok x ∧
        ∀ j, j < i → indexConst v j ≠ Except.ok x) ∧
    ((∀ i, indexConst v i ≠ Except.ok x) → Find v x = Except.ok (-1)) ∧
    (∀ w : MyVector T, Size w = Size v → live w = live v → Find w x = Find v x) := by
  obtain ⟨h1, _, h3⟩ := h
  have hspec := findLoop_spec x v.size_ 0 v.data_ (by omega)
  simp only [Nat.zero_add] at hspec
  refine ⟨?_, ?_, ?_⟩
  · rintro ⟨i, hi⟩
    rw [indexConst_ok_iff] at hi
    rcases hspec with ⟨_, hall⟩ | ⟨m, _, hm, hget, hmin, hres⟩
    · exact absurd hi.2 (hall i (Nat.zero_le i) hi.1)
    · refine ⟨m, ?_, hm, ?_, fun j hj hc => ?_⟩
      · rw [Find, hres, toInt_of_lt m (by simp only [Size] at hsz; omega)]
      · rw [indexConst_ok_iff]
        exact ⟨hm, hget⟩
      · rw [indexConst_ok_iff] at hc
        exact hmin j (Nat.zero_le j) hj hc.2
  · intro hnone
    rcases hspec with ⟨hres, _⟩ | ⟨m, _, hm, hget, _, _⟩
    · exact hres
    · exact absurd ((indexConst_ok_iff v m x).mpr ⟨hm, hget⟩) (hnone m)
  · intro w hws hwl
    simp only [Size] at hws
    simp only [Find, hws]
    apply findLoop_congr
    intro j _ hj
    have e := congrArg (fun l : List T => l[j]?) hwl
    simp only [live, List.getElem?_take, hws] at e
    rw [if_pos (by omega), if_pos (by omega)] at e
    exact e

/-- Witness of C6: the vector 0, 1, 2, 1 of the test in `main`, built by four `PushBack`. -/
theorem Find_first_match_witness :
    Inv findSample ∧ Size findSample < 2147483648 ∧
    pushBackAll (fun _ => zeros) (mkDefault zeros)
      [Ref.outside 0, Ref.outside 1, Ref.outside 2, Ref.outside 1] = Except.ok findSample ∧
    Find findSample 0 = Except.ok 0 ∧ Find findSample 1 = Except.ok 1 ∧
    Find findSample 2 = Except.ok 2 ∧
    ((∀ i, indexConst findSample i ≠ Except.ok 3) → Find findSample 3 = Except.ok (-1)) ∧
    Find findSample 3 = Except.ok (-1) :=
  ⟨by decide, by decide, by decide, by decide, by decide, by decide,
    (Find_first_match findSample 3 (by decide) (by decide)).2.1, by decide⟩

/-- C7: on a vector that satisfies the invariant, the read only `operator[]`, the mutable
`operator[]` and a store through the mutable one each fail exactly when the index is not below
the size; below the size they succeed, the two reads return the live element at that position
and the store replaces that live element only.  An index in `[size, capacity)` fails although
the slot is allocated. -/
theorem index_checked (v : MyVector T) (i : Nat) (y : T) (h : Inv v) :
    ((∃ e, indexConst v i = Except.error e) ↔ Size v ≤ i) ∧
    ((∃ e, indexMut v i = Except.error e) ↔ Size v ≤ i) ∧
    ((∃ e, indexAssign v i y = Except.error e) ↔ Size v ≤ i) ∧
    (i < Size v → ∃ a, (live v)[i]? = some a ∧ indexConst v i = Except.ok a ∧
      indexMut v i = Except.ok a) ∧
    (i < Size v → ∃ v1, indexAssign v i y = Except.ok v1 ∧ live v1 = (live v).set i y ∧
      Size v1 = Size v ∧ v1.allocated_size_ = v.allocated_size_) ∧
    (Size v ≤ i → i < v.allocated_size_ →
      indexConst v i = Except.error Fault.assertion ∧
      indexMut v i = Except.error Fault.assertion ∧
      indexAssign v i y = Except.error Fault.assertion) := by
  obtain ⟨h1, _, h3⟩ := h
  have hvl : v.size_ ≤ v.data_.length := by omega
  simp only [Size, indexMut_eq_indexConst]
  by_cases hi : i < v.size_
  · have hlt : i < v.data_.length := by omega
    have hnot : ¬ v.size_ ≤ i := by omega
    have hr : indexConst v i = Except.ok v.data_[i] := by
      simp [indexConst, hi, rd_of_lt hlt]
    have hw : indexAssign v i y = Except.ok { v with data_ := v.data_.set i y } := by
      simp [indexAssign, hi, wr_of_lt y hlt]
    refine ⟨by simp [hr, hnot], by simp [hr, hnot], by simp [hw, hnot], fun _ => ?_, fun _ => ?_,
      fun hc => absurd hc hnot⟩
    · refine ⟨v.data_[i], ?_, hr, hr⟩
      simp [live, List.getElem?_take, hi, List.getElem?_eq_getElem hlt]
    · refine ⟨_, hw, ?_, rfl, rfl⟩
      simp only [live]
      apply List.ext_getElem?
      intro j
      simp only [List.getElem?_take, List.getElem?_set, List.length_take]
      by_cases hj : j < v.size_
      · by_cases hij : i = j
        · simp [hj, hij, hlt, Nat.min_eq_left hvl]
          omega
        · simp [hj, hij]
      · have hij : ¬ i = j := by omega
        simp [hj, hij]
  · have hge : v.size_ ≤ i := by omega
    have hr : indexConst v i = Except.error Fault.assertion := by simp [indexConst, hi]
    have hw : indexAssign v i y = Except.error Fault.assertion := by simp [indexAssign, hi]
    exact ⟨by simp [hr, hge], by simp [hr, hge], by simp [hw, hge], fun hc => absurd hc hi,
      fun hc => absurd hc hi, fun _ _ => ⟨hr, hr, hw⟩⟩

/-- Witness of C7: index 3 of a vector with three live elements in eight slots. -/
theorem index_checked_witness :
    Inv threeOfEight ∧
    (3 < threeOfEight.allocated_size_) ∧
    ((∃ e, indexConst threeOfEight 3 = Except.error e) ↔ Size threeOfEight ≤ 3) ∧
    indexConst threeOfEight 3 = Except.error Fault.assertion ∧
    indexConst threeOfEight 2 = Except.ok 3 :=
  ⟨by decide, by decide, (index_checked threeOfEight 3 9 (by decide)).1, by decide, by decide⟩

/-- C8: `PopBack` and `PopFront` fail, on the assertion, when the size is 0, whatever the
capacity and the buffer are; on a vector that satisfies the invariant each of them fails exactly
when the size is 0 and returns a vector exactly when the size is at least 1. -/
theorem pop_fails_iff_empty (fresh : Nat → T) (v : MyVector T) (h : Inv v) :
    ((∃ e, PopBack fresh v = Except.error e) ↔ Size v = 0) ∧
    ((∃ e, PopFront fresh v = Except.error e) ↔ Size v = 0) ∧
    ((∃ v1, PopBack fresh v = Except.ok v1) ↔ 1 ≤ Size v) ∧
    ((∃ v1, PopFront fresh v = Except.ok v1) ↔ 1 ≤ Size v) ∧
    (∀ w : MyVector T, Size w = 0 →
      PopBack fresh w = Except.error Fault.assertion ∧
      PopFront fresh w = Except.error Fault.assertion) := by
  have hempty : ∀ w : MyVector T, Size w = 0 →
      PopBack fresh w = Except.error Fault.assertion ∧
      PopFront fresh w = Except.error Fault.assertion := by
    intro w hw
    simp only [Size] at hw
    exact ⟨by simp [PopBack, hw], by simp [PopFront, hw]⟩
  by_cases hz : v.size_ = 0
  · obtain ⟨hb, hf⟩ := hempty v hz
    simp only [Size]
    exact ⟨by simp [hb, hz], by simp [hf, hz], by simp [hb, hz], by simp [hf, hz], hempty⟩
  · obtain ⟨b, hb, _⟩ := PopBack_spec fresh v h hz
    obtain ⟨f, hf, _⟩ := PopFront_spec fresh v h hz
    have hpos : 1 ≤ v.size_ := by omega
    simp only [Size]
    exact ⟨by simp [hb, hz], by simp [hf, hz], by simp [hb, hpos], by simp [hf, hpos], hempty⟩

/-- Witness of C8: a vector emptied by a pop keeps its four slots and rejects a further pop. -/
theorem pop_fails_iff_empty_witness :
    Inv sparseOne ∧
    ((∃ v1, PopBack zeros sparseOne = Except.ok v1) ↔ 1 ≤ Size sparseOne) ∧
    PopBack zeros sparseOne = Except.ok { size_ := 0, allocated_size_ := 2, data_ := [0, 0] } ∧
    PopBack zeros ({ size_ := 0, allocated_size_ := 2, data_ := [0, 0] } : MyVector Int) =
      Except.error Fault.assertion ∧
    PopFront zeros ({ size_ := 0, allocated_size_ := 2, data_ := [0, 0] } : MyVector Int) =
      Except.error Fault.assertion :=
  ⟨by decide, (pop_fails_iff_empty zeros sparseOne (by decide)).2.2.1, by decide, by decide,
    by decide⟩

/-- C9, as the code has it: growth threshold.  For every sequence `xs` of `n ≥ 1` objects
outside of the buffer of the vector, `PushBack` of each of them in turn on the default
constructed vector returns without a fault, whatever `new` delivers in the slots; the size is
`n`, the capacity is the smallest power of two that is at least `n`, and the element at every
index `i < n` is the `i`-th value pushed. -/
theorem pushBack_growth (fs : Nat → Nat → T) (f0 : Nat → T) (xs : List T)
    (_hn : 1 ≤ xs.length) :
    ∃ v, pushBackAll fs (mkDefault f0) (xs.map Ref.outside) = Except.ok v ∧
      Size v = xs.length ∧
      (∃ k, v.allocated_size_ = 2 ^ k ∧ xs.length ≤ 2 ^ k ∧
        ∀ m, xs.length ≤ 2 ^ m → 2 ^ k ≤ 2 ^ m) ∧
      live v = xs ∧
      (∀ i, i < xs.length → ∃ a, xs[i]? = some a ∧ indexConst v i = Except.ok a) := by
  obtain ⟨w, hw, hinv, ⟨k, hk, hhalf⟩, hs, hl⟩ :=
    pushBackAll_spec xs fs (mkDefault f0) (Inv_mkDefault f0) (PowCap_mkDefault f0)
  have hs1 : w.size_ = xs.length := by
    rw [hs]
    simp [mkDefault]
  have hl1 : live w = xs := by
    rw [hl]
    simp [live, mkDefault]
  obtain ⟨h1, _, h3⟩ := hinv
  refine ⟨w, hw, hs1, ⟨k, hk, by omega, fun m hm => ?_⟩, hl1, fun i hi => ?_⟩
  · rcases hhalf with h0 | h0
    · rw [h0]
      exact Nat.one_le_two_pow
    · have hlt : 2 ^ (k - 1) < 2 ^ m := by omega
      have hkm : k - 1 < m := (Nat.pow_lt_pow_iff_right (by decide)).mp hlt
      exact Nat.pow_le_pow_right (by decide) (by omega)
  · refine ⟨xs[i], List.getElem?_eq_getElem hi, ?_⟩
    rw [indexConst_eq_live w (by omega), hl1, List.getElem?_eq_getElem hi]

/-- Witness of C9: the relocation test of `main`, 1025 pushes of the loop variable with the
values 0, 1, ..., 1024, an object outside of the buffer. -/
theorem pushBack_growth_witness :
    1 ≤ relocInput.length ∧
    ∃ v, pushBackAll (fun _ => zeros) (mkDefault zeros) (relocInput.map Ref.outside) =
        Except.ok v ∧
      Size v = 1025 ∧ v.allocated_size_ = 2048 ∧
      ∀ i, i < 1025 → indexConst v i = Except.ok (i : Int) := by
  have hlen : relocInput.length = 1025 := by simp [relocInput]
  obtain ⟨v, hv, hs, ⟨k, hk, hle, hmin⟩, _, hidx⟩ :=
    pushBack_growth (fun _ => zeros) zeros relocInput (by rw [hlen]; decide)
  rw [hlen] at hs hle hmin hidx
  refine ⟨by rw [hlen]; decide, v, hv, hs, ?_, fun i hi => ?_⟩
  · have h11 : 2 ^ k ≤ 2 ^ 11 := hmin 11 (by decide)
    have hk11 : k ≤ 11 := (Nat.pow_le_pow_iff_right (by decide)).mp h11
    rw [hk]
    interval_cases k <;> simp_all
  · obtain ⟨a, ha, hr⟩ := hidx i hi
    rw [hr]
    simp only [relocInput, List.getElem?_map, List.getElem?_range hi, Option.map_some'] at ha
    cases ha
    rfl

/-- C9 as stated fails for a sequence of two values of which the second is passed as `v[0]`:
after `v.PushBack(7)` on the default constructed vector, which is then full, the call
`v.PushBack(v[0])` reads its argument from the buffer that the growth step has released, so
the two calls do not yield the elements 7, 7. -/
theorem pushBack_growth_counterexample :
    PushBack zeros (mkDefault zeros) (Ref.outside 7) =
      Except.ok { size_ := 1, allocated_size_ := 1, data_ := [7] } ∧
    indexConst ({ size_ := 1, allocated_size_ := 1, data_ := [7] } : MyVector Int) 0 =
      Except.ok 7 ∧
    pushBackAll (fun _ => zeros) (mkDefault zeros) [Ref.outside 7, Ref.slot 0] =
      Except.error Fault.outOfBounds := by
  refine ⟨by decide, by decide, by decide⟩

/-- C10, as the code has it: push/pop round trip.  In every state reachable from a constructor
through the public operations, `PushBack` of an argument that is still there when it is read
(an object outside of the buffer, or an element `v[j]` of a vector that is not full), followed
by `PopBack()`, returns without a fault, whatever `new` delivers in the slots; `Size()` is what
it was before the push, and every element that was live before is at the same index with the
same value. -/
theorem push_pop_roundtrip (f1 f2 : Nat → T) (v : MyVector T) (r : Ref T) (h : Reachable v)
    (hr : r.Survives v) :
    ∃ v1 v2, PushBack f1 v r = Except.ok v1 ∧ PopBack f2 v1 = Except.ok v2 ∧
      Size v2 = Size v ∧ live v2 = live v ∧
      ∀ i, i < Size v → indexConst v2 i = indexConst v i := by
  have hinv := h.inv
  obtain ⟨x, hx⟩ := Ref.read_of_survives r v hinv hr
  obtain ⟨v1, hv1, hinv1, hs1, _, hl1⟩ := PushBack_spec f1 v r x hinv hr hx
  obtain ⟨v2, hv2, hinv2, hs2, _, hl2⟩ := PopBack_spec f2 v1 hinv1 (by omega)
  have hl : live v2 = live v := by
    rw [hl2, hl1, List.dropLast_concat]
  have hvl : v.size_ ≤ v.data_.length := by
    obtain ⟨h1, _, h3⟩ := hinv
    omega
  have hvl2 : v2.size_ ≤ v2.data_.length := by
    obtain ⟨h1, _, h3⟩ := hinv2
    omega
  refine ⟨v1, v2, hv1, hv2, by simp only [Size]; omega, hl, fun i _ => ?_⟩
  rw [indexConst_eq_live v2 hvl2, indexConst_eq_live v hvl, hl]

/-- Witness of C10: the full vector 5, 6 that two `PushBack` on the default constructed vector
give, where the push of 7 runs the growth step and the elements 5 and 6 are at their indices
after the pop; and the vector 5, 6, 7 in four slots with `v.PushBack(v[1])`. -/
theorem push_pop_roundtrip_witness :
    Reachable fullPair ∧ (Ref.outside 7).Survives fullPair ∧
    PushBack junk fullPair (Ref.outside 7) =
      Except.ok { size_ := 3, allocated_size_ := 4, data_ := [5, 6, 7, 103] } ∧
    PopBack junk ({ size_ := 3, allocated_size_ := 4, data_ := [5, 6, 7, 103] } : MyVector Int) =
      Except.ok { size_ := 2, allocated_size_ := 4, data_ := [5, 6, 7, 103] } ∧
    (∃ v1 v2, PushBack junk fullPair (Ref.outside 7) = Except.ok v1 ∧
      PopBack junk v1 = Except.ok v2 ∧ Size v2 = Size fullPair ∧
      live v2 = live fullPair ∧
      ∀ i, i < Size fullPair → indexConst v2 i = indexConst fullPair i) ∧
    Reachable threeFree ∧ (Ref.slot 1).Survives threeFree ∧
    (∃ v1 v2, PushBack junk threeFree (Ref.slot 1) = Except.ok v1 ∧
      PopBack junk v1 = Except.ok v2 ∧ Size v2 = Size threeFree ∧
      live v2 = live threeFree ∧
      ∀ i, i < Size threeFree → indexConst v2 i = indexConst threeFree i) :=
  ⟨reachable_fullPair, by decide, by decide, by decide,
    push_pop_roundtrip junk junk fullPair (Ref.outside 7) reachable_fullPair (by decide),
    reachable_threeFree, by decide,
    push_pop_roundtrip junk junk threeFree (Ref.slot 1) reachable_threeFree (by decide)⟩

/-- C10 as stated fails: the full vector with the one element 42 is reachable, by `PushBack(42)`
on the default constructed vector, and on it `v.PushBack(v[0])` with the value 42 does not
return a vector to pop from; the argument is read from the buffer that the growth step has
released. -/
theorem push_pop_roundtrip_counterexample :
    Reachable fullOne ∧ indexConst fullOne 0 = Except.ok 42 ∧
    PushBack zeros fullOne (Ref.slot 0) = Except.error Fault.outOfBounds ∧
    ¬ ∃ v1 v2, PushBack zeros fullOne (Ref.slot 0) = Except.ok v1 ∧
        PopBack zeros v1 = Except.ok v2 := by
  have h : PushBack zeros fullOne (Ref.slot 0) = Except.error Fault.outOfBounds := by decide
  refine ⟨reachable_fullOne, by decide, h, ?_⟩
  rintro ⟨v1, v2, hv1, _⟩
  rw [h] at hv1
  cases hv1

/-- C11, as the code has it: for every `n` below 2^63 and every `value` the sized constructor
returns without a fault, whatever `new` delivers in the slots, a vector of size `n` and capacity
`2 * n + 1` whose live elements, at the indices below `n`, all equal `value`.  From 2^63 on the
capacity `size * 2 + 1` wraps around in `size_t`. -/
theorem sized_ctor_shape (fresh : Nat → T) (n : Nat) (value : T)
    (hn : n < 9223372036854775808) :
    ∃ v, mkSized fresh n value = Except.ok v ∧ Size v = n ∧ v.allocated_size_ = 2 * n + 1 ∧
      live v = List.replicate n value ∧
      ∀ i, i < n → indexConst v i = Except.ok value := by
  refine ⟨_, mkSized_spec fresh n value hn, rfl, by simp only; omega, ?_, fun i hi => ?_⟩
  · simp only [live]
    rw [List.take_left' (by simp)]
  · rw [indexConst_ok_iff]
    refine ⟨hi, ?_⟩
    simp only
    rw [List.getElem?_append_left (by simpa using hi), List.getElem?_replicate, if_pos hi]

/-- Witness of C11: `MyVector<int>(2, 7)` has size 2, capacity 5 and the live elements 7, 7. -/
theorem sized_ctor_shape_witness :
    2 < 9223372036854775808 ∧
    mkSized zeros 2 7 = Except.ok sizedTwo ∧
    ∃ v, mkSized zeros 2 7 = Except.ok v ∧ Size v = 2 ∧ v.allocated_size_ = 2 * 2 + 1 ∧
      live v = List.replicate 2 7 ∧
      ∀ i, i < 2 → indexConst v i = Except.ok 7 :=
  ⟨by decide, by decide, sized_ctor_shape zeros 2 7 (by decide)⟩

/-- C11 as stated fails for `n` = 2^63: `size * 2 + 1` is 2^64 + 1, which is 1 in `size_t`, so
`MyVector<int>(9223372036854775808, 7)` allocates one slot and its fill loop, which runs over
the indices below `n`, leaves the buffer at index 1; no vector of capacity `2 * n + 1` is
returned. -/
theorem sized_ctor_shape_counterexample :
    (9223372036854775808 * 2 + 1) % 18446744073709551616 = 1 ∧
    mkSized junk 9223372036854775808 7 = Except.error Fault.outOfBounds ∧
    ¬ ∃ v, mkSized junk 9223372036854775808 7 = Except.ok v ∧
        v.allocated_size_ = 2 * 9223372036854775808 + 1 := by
  have h : mkSized junk 9223372036854775808 7 = Except.error Fault.outOfBounds := by decide
  refine ⟨by decide, h, ?_⟩
  rintro ⟨v, hv, _⟩
  rw [h] at hv
  cases hv

/-- C12, as the code has it: for every `n` below 2^63 and every `value` the sized constructor
allocates `2 * n + 1` slots and stores `value` in the slots below `n` only; every slot at an
index `j` with `n ≤ j < 2 * n + 1` is left as `new T[2 * n + 1]` delivered it, with the
content `fresh j`: the default constructed `T()` for a class type, an indeterminate value for a
type like `int`. -/
theorem sized_ctor_dead_slots (fresh : Nat → T) (n : Nat) (value : T)
    (hn : n < 9223372036854775808) :
    ∃ v, mkSized fresh n value = Except.ok v ∧ v.data_.length = 2 * n + 1 ∧
      (∀ j, j < n → v.data_[j]? = some value) ∧
      (∀ j, n ≤ j → j < 2 * n + 1 → v.data_[j]? = some (fresh j)) := by
  refine ⟨_, mkSized_spec fresh n value hn, ?_, fun j hj => ?_, fun j h1 h2 => ?_⟩
  · simp [length_newArray]
    omega
  · simp only
    rw [List.getElem?_append_left (by simpa using hj), List.getElem?_replicate, if_pos hj]
  · simp only
    rw [List.getElem?_append_right (by simpa using h1), List.length_replicate,
      List.getElem?_drop, getElem?_newArray, if_pos (by omega)]
    congr 2
    omega

/-- Witness of C12: `MyVector<int>(2, 7)` where `new int[5]` delivers 100, 101, 102, 103, 104
has the buffer 7, 7, 102, 103, 104. -/
theorem sized_ctor_dead_slots_witness :
    2 < 9223372036854775808 ∧
    mkSized junk 2 7 =
      Except.ok { size_ := 2, allocated_size_ := 5, data_ := [7, 7, 102, 103, 104] } ∧
    ∃ v, mkSized junk 2 7 = Except.ok v ∧ v.data_.length = 2 * 2 + 1 ∧
      (∀ j, j < 2 → v.data_[j]? = some 7) ∧
      (∀ j, 2 ≤ j → j < 2 * 2 + 1 → v.data_[j]? = some (junk j)) :=
  ⟨by decide, by decide, sized_ctor_dead_slots junk 2 7 (by decide)⟩

/-- C12 as stated fails: `MyVector<MyStruct>(1, MyStruct(42, "4242"))` has the three slots
`(42, "4242")`, `MyStruct()`, `MyStruct()`, so the slots 1 and 2 do not hold the value. -/
theorem sized_ctor_dead_slots_counterexample :
    mkSized structFresh 1 (MyStruct.ofFields (42, "4242")) =
      Except.ok { size_ := 1, allocated_size_ := 3,
                  data_ := [MyStruct.ofFields (42, "4242"), default, default] } ∧
    ¬ ∃ v, mkSized structFresh 1 (MyStruct.ofFields (42, "4242")) = Except.ok v ∧
        ∀ j, 1 ≤ j → j < 2 * 1 + 1 → v.data_[j]? = some (MyStruct.ofFields (42, "4242")) := by
  have h : mkSized structFresh 1 (MyStruct.ofFields (42, "4242")) =
      Except.ok { size_ := 1, allocated_size_ := 3,
                  data_ := [MyStruct.ofFields (42, "4242"), default, default] } := by decide
  refine ⟨h, ?_⟩
  rintro ⟨v, hv, hall⟩
  rw [h] at hv
  cases hv
  have h1 := hall 1 (le_refl 1) (by decide)
  revert h1
  decide

/-- C13: copy construction of a new object `t` from an object `o` that stands for the vector
`s` returns without a fault, whatever free address `new` hands out and whatever it delivers in
the slots.  The new object stands for a vector with the size of `s`, the capacity of `s` as it
is, and the live elements of `s` index by index; it is the vector the copy constructor computes
on values.  The source is unchanged, members and buffer, and the copy has a buffer of its
own. -/
theorem copy_ctor_copies (fresh : Nat → T) (m : Mem T) (t o a : Nat) (s : MyVector T)
    (hto : t ≠ o) (ha : m.heap a = none) (hv : m.view o = some s) (hinv : Inv s) :
    ∃ m1 c, Mem.copyCtor fresh m t o a = Except.ok m1 ∧ m1.view t = some c ∧
      copyCtor fresh s = Except.ok c ∧
      Size c = Size s ∧ c.allocated_size_ = s.allocated_size_ ∧ live c = live s ∧
      (∀ i, i < Size s → indexConst c i = indexConst s i) ∧
      m1.view o = some s ∧ m1.obj o = m.obj o ∧ (m1.obj t).data_ ≠ (m1.obj o).data_ := by
  obtain ⟨m1, hm1, hobjt, hobjs, hheap, hframe, hao⟩ :=
    Mem.copyCtor_mem fresh m t o a s hto ha hv hinv
  obtain ⟨h1, h2, h3⟩ := hinv
  have hlen : s.size_ ≤ s.data_.length := by omega
  have hc := copyLoop_zero s.data_ s.size_ (newArray fresh s.allocated_size_) hlen
    (by rw [length_newArray]; exact h1)
  have hot : o ≠ t := fun h => hto h.symm
  have hlive : live (⟨s.size_, s.allocated_size_,
      s.data_.take s.size_ ++ (newArray fresh s.allocated_size_).drop s.size_⟩ : MyVector T) =
      live s := by
    simp only [live]
    rw [List.take_left' (by rw [List.length_take, Nat.min_eq_left hlen])]
  refine ⟨m1, ⟨s.size_, s.allocated_size_,
      s.data_.take s.size_ ++ (newArray fresh s.allocated_size_).drop s.size_⟩,
    hm1, ?_, ?_, rfl, rfl, hlive, fun i _ => ?_, ?_, hobjs o hot, ?_⟩
  · exact Mem.view_of_parts m1 t _ _ hobjt hheap
  · simp only [copyCtor, hc]
  · refine indexConst_congr_live _ s ?_ hlen hlive i
    simp only [List.length_append, List.length_take, List.length_drop, length_newArray]
    rw [Nat.min_eq_left hlen]
    omega
  · rw [← hv]
    exact Mem.view_congr m m1 o (hobjs o hot) (hframe _ (Ne.symm hao))
  · rw [hobjt, hobjs o hot]
    exact hao

/-- Witness of C13: the copy test of `main` in small, `MyVector<int> other(v)` with `v` holding
0, 1, 2 in four slots. -/
theorem copy_ctor_copies_witness :
    (2 : Nat) ≠ 0 ∧ testMem.heap 12 = none ∧ testMem.view 0 = some threeOfFour ∧
    Inv threeOfFour ∧
    ∃ m1 c, Mem.copyCtor junk testMem 2 0 12 = Except.ok m1 ∧ m1.view 2 = some c ∧
      copyCtor junk threeOfFour = Except.ok c ∧
      Size c = Size threeOfFour ∧ c.allocated_size_ = threeOfFour.allocated_size_ ∧
      live c = live threeOfFour ∧
      (∀ i, i < Size threeOfFour → indexConst c i = indexConst threeOfFour i) ∧
      m1.view 0 = some threeOfFour ∧ m1.obj 0 = testMem.obj 0 ∧
      (m1.obj 2).data_ ≠ (m1.obj 0).data_ :=
  ⟨by decide, by decide, by decide, by decide,
    copy_ctor_copies junk testMem 2 0 12 threeOfFour (by decide) (by decide) (by decide)
      (by decide)⟩

/-- C17, as the code has it: emplace matches explicit construction for constructor arguments
that are outside of the buffer of the vector.  For these, `EmplaceBack(args...)` has the result
of `PushBack(T(args...))` and `EmplaceFront(args...)` the result of `PushFront(T(args...))`, the
temporary `T(args...)` being an object outside of the buffer: the same size, capacity and
elements, whatever `new` delivers in the slots; with no arguments the element inserted is the
default value `T()`.  On a vector that satisfies the invariant both return without a fault and
the new element is the last, respectively the first, live element.  An emplace of the one
argument `v[j]`, an element of the vector itself, constructs the element from the slot as it is
after the growth step and the shift; it has the result of `PushBack(v[j])`, respectively
`PushFront(v[j])`, with the reference passed on, not the result of a push of a copy made
before the call. -/
theorem emplace_matches_push [Inhabited T] {A : Type} (fresh : Nat → T) (ctor : A → T)
    (v : MyVector T) (args : A) :
    EmplaceBack fresh ctor v (ArgPack.values args) =
      PushBack fresh v (Ref.outside (ctor args)) ∧
    EmplaceFront fresh ctor v (ArgPack.values args) =
      PushFront fresh v (Ref.outside (ctor args)) ∧
    EmplaceBack fresh (fun _ : Unit => (default : T)) v (ArgPack.values ()) =
      PushBack fresh v (Ref.outside default) ∧
    EmplaceFront fresh (fun _ : Unit => (default : T)) v (ArgPack.values ()) =
      PushFront fresh v (Ref.outside default) ∧
    (∀ j, EmplaceBack fresh (fun a : T => a) v (ArgPack.element j) =
        PushBack fresh v (Ref.slot j) ∧
      EmplaceFront fresh (fun a : T => a) v (ArgPack.element j) =
        PushFront fresh v (Ref.slot j)) ∧
    (Inv v →
      (∃ v1, EmplaceBack fresh ctor v (ArgPack.values args) = Except.ok v1 ∧
        live v1 = live v ++ [ctor args] ∧ Size v1 = Size v + 1) ∧
      (∃ v1, EmplaceFront fresh ctor v (ArgPack.values args) = Except.ok v1 ∧
        live v1 = ctor args :: live v ∧ Size v1 = Size v + 1)) := by
  refine ⟨?_, ?_, ?_, ?_, fun j => ⟨rfl, rfl⟩, fun h => ⟨?_, ?_⟩⟩
  · simp only [EmplaceBack, PushBack, ArgPack.values, Ref.read_outside]
  · simp only [EmplaceFront, PushFront, ArgPack.values, Ref.read_outside]
  · simp only [EmplaceBack, PushBack, ArgPack.values, Ref.read_outside]
  · simp only [EmplaceFront, PushFront, ArgPack.values, Ref.read_outside]
  · obtain ⟨w, hw, _, hs, _, hl⟩ :=
      EmplaceBack_of_args fresh ctor v (ArgPack.values args) args h (fun _ _ => rfl)
    exact ⟨w, hw, hl, hs⟩
  · obtain ⟨w, hw, _, hs, _, hl⟩ :=
      EmplaceFront_of_args fresh ctor v (ArgPack.values args) args h (fun _ _ => rfl)
    exact ⟨w, hw, hl, hs⟩

/-- Witness of C17: the emplace test of `main` leaves the six elements `(1111, "2222")`, four
times `MyStruct()`, `(42, "4242")`, and its third step has the result of a `PushBack` of
`MyStruct(42, "4242")`. -/
theorem emplace_matches_push_witness :
    (emplaceTest.map live) =
      Except.ok [MyStruct.ofFields (1111, "2222"), default, default, default, default,
        MyStruct.ofFields (42, "4242")] ∧
    EmplaceBack structFresh MyStruct.ofFields (mkDefault structFresh)
        (ArgPack.values (42, "4242")) =
      PushBack structFresh (mkDefault structFresh)
        (Ref.outside (MyStruct.ofFields (42, "4242"))) ∧
    EmplaceBack structFresh (fun _ : Unit => (default : MyStruct)) (mkDefault structFresh)
        (ArgPack.values ()) =
      Except.ok { size_ := 1, allocated_size_ := 1, data_ := [default] } :=
  ⟨by decide,
    (emplace_matches_push structFresh MyStruct.ofFields (mkDefault structFresh) (42, "4242")).1,
    by decide⟩

/-- C17 as stated fails when the constructor argument is an element of the vector itself.  On
the vector 5, 6, 7 in four slots `v.EmplaceFront(v[1])` returns 5, 5, 6, 7, because the shift
has overwritten slot 1 before the element is constructed from it, while
`v.PushFront(int(v[1]))`, a push of the temporary 6, returns 6, 5, 6, 7.  On the full vector
5, 6 `v.EmplaceBack(v[0])` reads the released buffer, while `v.PushBack(int(v[0]))`
returns 5, 6, 5. -/
theorem emplace_matches_push_counterexample :
    indexConst threeFree 1 = Except.ok 6 ∧
    EmplaceFront zeros (fun a : Int => a) threeFree (ArgPack.element 1) =
      Except.ok { size_ := 4, allocated_size_ := 4, data_ := [5, 5, 6, 7] } ∧
    PushFront zeros threeFree (Ref.outside 6) =
      Except.ok { size_ := 4, allocated_size_ := 4, data_ := [6, 5, 6, 7] } ∧
    indexConst fullPair 0 = Except.ok 5 ∧
    EmplaceBack zeros (fun a : Int => a) fullPair (ArgPack.element 0) =
      Except.error Fault.outOfBounds ∧
    PushBack zeros fullPair (Ref.outside 5) =
      Except.ok { size_ := 3, allocated_size_ := 4, data_ := [5, 6, 5, 0] } := by
  refine ⟨by decide, by decide, by decide, by decide, by decide, by decide⟩

/-- C18, as the code has it: in every state reachable from a constructor through the public
operations, growth is invoked (`size_ == allocated_size_`) only with a size of at least 1, so
its target `size_ * 2` is not 0.  Every slot access of the model is checked against the extent
of the buffer it touches, and a released buffer has no extent, so an operation that returns
without a fault made all its reads and writes below the capacity of a buffer that is
allocated: the growth step does, its target is at least the size and it leaves room for the
slot that is written next; `PushBack` and `PushFront` do for an argument that is still there
when it is read (an object outside of the buffer, or an element `v[j]` of a vector that is not
full), `EmplaceBack` and `EmplaceFront` do for arguments outside of the buffer; on a non-empty
vector the two removals do, and a shrink has a target of at least the new size; `Relocate`
does for every target of at least the size.  The two shift loops run without a fault on the
buffer cut down to the slots `[0, size)`, so they stay inside the live range.  On a full
vector an insertion of `v[j]` reads its argument in the buffer that the growth step has
released. -/
theorem accesses_in_bounds {A : Type} (fresh : Nat → T) (ctor : A → T) (args : A)
    (v : MyVector T) (r : Ref T) (h : Reachable v) (hr : r.Survives v) :
    (v.size_ = v.allocated_size_ → 1 ≤ v.size_ ∧ v.size_ * 2 ≠ 0) ∧
    (∃ g, growIfFull fresh v = Except.ok g ∧ v.size_ ≤ g.allocated_size_ ∧
      g.data_.length = g.allocated_size_ ∧ g.size_ < g.allocated_size_ ∧
      ∃ s, shiftUpLoop (g.size_ + 1) (g.data_.take (g.size_ + 1)) = Except.ok s) ∧
    (∃ v1, PushBack fresh v r = Except.ok v1) ∧
    (∃ v1, PushFront fresh v r = Except.ok v1) ∧
    (∃ v1, EmplaceBack fresh ctor v (ArgPack.values args) = Except.ok v1) ∧
    (∃ v1, EmplaceFront fresh ctor v (ArgPack.values args) = Except.ok v1) ∧
    (∀ j, v.size_ = v.allocated_size_ →
      PushBack fresh v (Ref.slot j) = Except.error Fault.outOfBounds ∧
      PushFront fresh v (Ref.slot j) = Except.error Fault.outOfBounds ∧
      EmplaceBack fresh (fun a : T => a) v (ArgPack.element j) =
        Except.error Fault.outOfBounds ∧
      EmplaceFront fresh (fun a : T => a) v (ArgPack.element j) =
        Except.error Fault.outOfBounds) ∧
    (v.size_ ≠ 0 →
      (∃ v1, PopBack fresh v = Except.ok v1) ∧ (∃ v1, PopFront fresh v = Except.ok v1) ∧
      (∃ s, shiftDownLoop (v.size_ - 1) 0 (v.data_.take v.size_) = Except.ok s) ∧
      (v.size_ - 1 < v.allocated_size_ / 4 → v.size_ - 1 ≤ v.allocated_size_ / 2)) ∧
    (∀ n, v.size_ ≤ n → ∃ s, Relocate fresh v n = Except.ok s) := by
  have hinv := h.inv
  obtain ⟨h1, h2, h3⟩ := h.inv
  obtain ⟨xb, hxb⟩ := Ref.read_of_survives r v hinv hr
  obtain ⟨xf, hxf⟩ := Ref.read_shifted_of_survives r v hinv hr
  refine ⟨fun hfull => ⟨by omega, by omega⟩, ?_, ?_, ?_, ?_, ?_, fun j hfull => ?_,
    fun hne => ⟨?_, ?_, ?_, ?_⟩, fun n hn => ?_⟩
  · obtain ⟨g, hg, hs, ha, hl, hlt, _⟩ := growIfFull_spec fresh v hinv
    refine ⟨g, hg, by omega, hl, hlt, ?_⟩
    obtain ⟨s, hs, _⟩ := shiftUpLoop_spec (g.size_ + 1) (g.data_.take (g.size_ + 1))
      (by rw [List.length_take, Nat.min_eq_left (by omega)])
    exact ⟨s, hs⟩
  · obtain ⟨w, hw, _⟩ := PushBack_spec fresh v r xb hinv hr hxb
    exact ⟨w, hw⟩
  · obtain ⟨w, hw, _⟩ := PushFront_spec fresh v r xf hinv hr hxf
    exact ⟨w, hw⟩
  · obtain ⟨w, hw, _⟩ :=
      EmplaceBack_of_args fresh ctor v (ArgPack.values args) args hinv (fun _ _ => rfl)
    exact ⟨w, hw⟩
  · obtain ⟨w, hw, _⟩ :=
      EmplaceFront_of_args fresh ctor v (ArgPack.values args) args hinv (fun _ _ => rfl)
    exact ⟨w, hw⟩
  · exact ⟨PushBack_slot_full fresh v j hinv hfull, PushFront_slot_full fresh v j hinv hfull,
      PushBack_slot_full fresh v j hinv hfull, PushFront_slot_full fresh v j hinv hfull⟩
  · obtain ⟨w, hw, _⟩ := PopBack_spec fresh v hinv hne
    exact ⟨w, hw⟩
  · obtain ⟨w, hw, _⟩ := PopFront_spec fresh v hinv hne
    exact ⟨w, hw⟩
  · obtain ⟨s, hs, _⟩ := shiftDownLoop_spec (v.size_ - 1) 0 (v.data_.take v.size_)
      (by rw [List.length_take, Nat.min_eq_left (by omega)]; omega)
    exact ⟨s, hs⟩
  · intro hlt
    omega
  · obtain ⟨s, hs, _⟩ := Relocate_spec fresh v n (by omega) hn
    exact ⟨s, hs⟩

/-- Witness of C18: the full vector the default constructor and one `PushBack` give, the state
in which growth is invoked with the smallest size, with an argument outside of its buffer; and
the vector 5, 6, 7 in four slots with the argument `v[1]`. -/
theorem accesses_in_bounds_witness :
    Reachable fullOne ∧ (Ref.outside 7).Survives fullOne ∧
    growIfFull junk fullOne = Except.ok { size_ := 1, allocated_size_ := 2, data_ := [42, 101] } ∧
    PushFront junk fullOne (Ref.outside 7) =
      Except.ok { size_ := 2, allocated_size_ := 2, data_ := [7, 42] } ∧
    (∃ v1, PushFront junk fullOne (Ref.outside 7) = Except.ok v1) ∧
    Reachable threeFree ∧ (Ref.slot 1).Survives threeFree ∧
    (∃ v1, PushBack junk threeFree (Ref.slot 1) = Except.ok v1) :=
  ⟨reachable_fullOne, by decide, by decide, by decide,
    (accesses_in_bounds junk (fun a : Int => a) 7 fullOne (Ref.outside 7) reachable_fullOne
      (by decide)).2.2.2.1,
    reachable_threeFree, by decide,
    (accesses_in_bounds junk (fun a : Int => a) 7 threeFree (Ref.slot 1) reachable_threeFree
      (by decide)).2.2.1⟩

/-- C18 as stated fails: the full vector 5, 6 is reachable, and on it `v.PushFront(v[1])` and
`v.EmplaceBack(v[1])` each read the argument in the buffer that `Relocate` has released in the
growth step, a read that is below the capacity of no allocated buffer. -/
theorem accesses_in_bounds_counterexample :
    Reachable fullPair ∧ indexConst fullPair 1 = Except.ok 6 ∧
    callBuffer fullPair [5, 6, 0, 0] = none ∧
    PushFront zeros fullPair (Ref.slot 1) = Except.error Fault.outOfBounds ∧
    EmplaceBack zeros (fun a : Int => a) fullPair (ArgPack.element 1) =
      Except.error Fault.outOfBounds :=
  ⟨reachable_fullPair, by decide, by decide, by decide, by decide⟩

/-- C19, as the code has it: in no state reachable from a constructor through the public
operations do two consecutive single operations reallocate in opposite directions.  A `PopBack`
or `PopFront` that shrinks the capacity leaves the size below the new capacity, so the
`PushBack` or `PushFront` that follows does not grow it; a push that grows the capacity leaves
the size at a quarter of the new capacity or more, so the pop that follows does not shrink
it. -/
theorem no_oscillation (fresh : Nat → T) (v : MyVector T) (x : Ref T) (h : Reachable v) :
    ¬ Oscillates v x ∧
    (∀ v1, (PopBack fresh v = Except.ok v1 ∨ PopFront fresh v = Except.ok v1) →
      v1.allocated_size_ < v.allocated_size_ → v1.size_ < v1.allocated_size_) ∧
    (∀ v1, (PushBack fresh v x = Except.ok v1 ∨ PushFront fresh v x = Except.ok v1) →
      v.allocated_size_ < v1.allocated_size_ → ¬ v1.size_ - 1 < v1.allocated_size_ / 4) := by
  refine ⟨not_oscillates_of_inv v x h.inv, fun v1 hpop hlt => ?_, fun v1 hpush hlt => ?_⟩
  · obtain ⟨_, _, hs, ha⟩ := pop_facts fresh v v1 h.inv hpop
    split_ifs at ha <;> omega
  · obtain ⟨_, hs, ha⟩ := push_facts fresh v x v1 h.inv hpush
    split_ifs at ha <;> omega

/-- Witness of C19: `MyVector<int>(2, 7)` after one `PopBack()`; the next `PopBack()` halves the
capacity 5 to 2 and the `PushBack` after it finds room. -/
theorem no_oscillation_witness :
    Reachable sizedTwoPopped ∧ ¬ Oscillates sizedTwoPopped (Ref.outside 9) ∧
    PopBack zeros sizedTwoPopped =
      Except.ok { size_ := 0, allocated_size_ := 2, data_ := [0, 0] } ∧
    PushBack zeros ({ size_ := 0, allocated_size_ := 2, data_ := [0, 0] } : MyVector Int)
        (Ref.outside 9) =
      Except.ok { size_ := 1, allocated_size_ := 2, data_ := [9, 0] } :=
  have hr : Reachable sizedTwoPopped :=
    Reachable.popBack zeros sizedTwo _ (Reachable.sized zeros 2 7 _ (by decide)) (by decide)
  ⟨hr, (no_oscillation zeros sizedTwoPopped (Ref.outside 9) hr).1, by decide, by decide⟩

/-- C19 as stated fails: no reachable state of `MyVector<int>` has a removal that shrinks the
capacity at once followed by an insertion that grows it, nor an insertion that grows it at once
followed by a removal that shrinks it. -/
theorem oscillation_counterexample :
    ¬ ∃ (v : MyVector Int) (x : Ref Int), Reachable v ∧ Oscillates v x := by
  rintro ⟨v, x, hr, hosc⟩
  exact not_oscillates_of_inv v x hr.inv hosc

/-- C20: occupancy lower bound.  In every state reachable from the default or the sized
constructor through the public operations the capacity is at most `4 * size + 3`, which is the
same as `capacity / 4 ≤ size` with integer division; a removal on such a state divides the
capacity by two at most once and the bound holds again after it. -/
theorem occupancy_bound (fresh : Nat → T) (v : MyVector T) (h : Reachable v) :
    v.allocated_size_ ≤ 4 * Size v + 3 ∧
    v.allocated_size_ / 4 ≤ Size v ∧
    (v.allocated_size_ ≤ 4 * Size v + 3 ↔ v.allocated_size_ / 4 ≤ Size v) ∧
    (∀ v1, (PopBack fresh v = Except.ok v1 ∨ PopFront fresh v = Except.ok v1) →
      (v1.allocated_size_ = v.allocated_size_ ∨ v1.allocated_size_ = v.allocated_size_ / 2) ∧
      v1.allocated_size_ ≤ 4 * Size v1 + 3) := by
  have hocc := h.occupancy
  simp only [Size]
  refine ⟨hocc, by omega, by omega, fun v1 hpop => ?_⟩
  obtain ⟨_, _, hs, ha⟩ := pop_facts fresh v v1 h.inv hpop
  split_ifs at ha <;> omega

/-- Witness of C20: `MyVector<int>(2, 7)` after one `PopBack()`, with size 1 and capacity 5. -/
theorem occupancy_bound_witness :
    Reachable sizedTwoPopped ∧
    sizedTwoPopped.allocated_size_ ≤ 4 * Size sizedTwoPopped + 3 ∧
    sizedTwoPopped.allocated_size_ / 4 ≤ Size sizedTwoPopped :=
  have hr : Reachable sizedTwoPopped :=
    Reachable.popBack zeros sizedTwo _ (Reachable.sized zeros 2 7 _ (by decide)) (by decide)
  ⟨hr, (occupancy_bound zeros sizedTwoPopped hr).1, (occupancy_bound zeros sizedTwoPopped hr).2.1⟩

end MyVec
